import Mathlib

/-!
Verification development for the ibatis-to-mybatis converter
(`src/converter.ts`, most complete revision).

The embedding models text as `List Char` (`Str`), JavaScript objects with
string keys as insertion-ordered association lists, and thrown `Error`s /
runtime `TypeError`s as an `Except ConvError` monad.  The recursive
statement-body converter `convertCommonSqlAndTags` takes an explicit fuel
argument bounding recursion depth (the source recursion is unbounded; every
theorem below supplies ample fuel for its input, and `.fuelExhausted` is an
artifact of the embedding, never reached in any theorem).
-/

namespace ItoM

/-- Text is modelled at the character level. -/
abbrev Str := List Char

/-- Convert a Lean string literal to the character-list representation. -/
def str (s : String) : Str := s.data

/-- The single-quote character (spelled via its code point). -/
def sq : Char := Char.ofNat 39

/-- The left-brace character (spelled via its code point). -/
def lb : Char := Char.ofNat 123

/-- The right-brace character (spelled via its code point). -/
def rb : Char := Char.ofNat 125

/-- The backquote character (spelled via its code point). -/
def bq : Char := Char.ofNat 96

/-- Whitespace recognised by the embedding of JavaScript `String.trim`
(the ASCII whitespace characters; the source trims Unicode whitespace,
which coincides on every string occurring in this development). -/
def isJsSpace (c : Char) : Bool :=
  c = ' ' || c = '\t' || c = '\n' || c = '\r' || c = Char.ofNat 11 || c = Char.ofNat 12

/-- JavaScript `String.prototype.trim`: drop leading and trailing whitespace. -/
def jsTrim (s : Str) : Str :=
  ((s.dropWhile isJsSpace).reverse.dropWhile isJsSpace).reverse

/-- JavaScript `text.replace(/\r\n/g, LINE_SEPARATOR)`: every CRLF pair
becomes a single LF, scanning left to right without overlap. -/
def crlfToLf : Str → Str
  | [] => []
  | [c] => [c]
  | c :: d :: rest =>
    if c = '\r' ∧ d = '\n' then '\n' :: crlfToLf rest
    else c :: crlfToLf (d :: rest)

/-- String interpolation of a possibly-undefined JavaScript value:
`undefined` interpolates as the literal text "undefined". -/
def jsRender : Option Str → Str
  | some s => s
  | none => str "undefined"

/-- ASCII upper-casing, the embedding of JavaScript `toUpperCase` (the
source may upper-case non-ASCII letters too; only ASCII occurs here). -/
def jsToUpper (s : Str) : Str :=
  s.map (fun c => if 'a' ≤ c ∧ c ≤ 'z' then Char.ofNat (c.toNat - 32) else c)

/-- ASCII lower-casing, the embedding of JavaScript `toLowerCase`. -/
def jsToLower (s : Str) : Str :=
  s.map (fun c => if 'A' ≤ c ∧ c ≤ 'Z' then Char.ofNat (c.toNat + 32) else c)

/-- JavaScript objects used as string-keyed maps are modelled as
insertion-ordered association lists with unique keys. -/
abbrev Attrs := List (Str × Str)

/-- Property read `o[k]`: the value at the first entry with key `k`. -/
def lookupJs {α : Type} (o : List (Str × α)) (k : Str) : Option α :=
  (o.find? (fun p => p.1 == k)).map (·.2)

/-- Property write `o[k] = v`: update in place when the key exists,
otherwise append at the end (JavaScript insertion order). -/
def setJs {α : Type} (o : List (Str × α)) (k : Str) (v : α) : List (Str × α) :=
  if o.any (fun p => p.1 == k) then
    o.map (fun p => if p.1 == k then (k, v) else p)
  else o ++ [(k, v)]

/-- Property removal `delete o[k]`. -/
def delJs {α : Type} (o : List (Str × α)) (k : Str) : List (Str × α) :=
  o.filter (fun p => !(p.1 == k))

/-- Truthiness of a possibly-absent string: `undefined` and the empty
string are falsy. -/
def jsTruthyOpt : Option Str → Bool
  | some s => !s.isEmpty
  | none => false

/-! ## The placeholder regex

`REGEX_IBATIS_ELEMENT = /([$#])([a-zA-Z_0-9\[\]]+)(\.[a-zA-Z0-9]+)?(?::([a-zA-Z_0-9]+))?\1/g`

All four character classes exclude the sigils `#`/`$`, the dot and the
colon, so the greedy runs never need to backtrack: matching at a fixed
start position is the deterministic maximal-munch procedure `matchAt`
below, and the global scan advances one character past a failed start
position and continues right after a successful match. -/

/-- Sigil class `[$#]` (capture group 1 / backreference `\1`). -/
def isSigilChar (c : Char) : Bool := c = '#' || c = '$'

/-- Name class `[a-zA-Z_0-9\[\]]` (capture group 2). -/
def isNameChar (c : Char) : Bool :=
  ('a' ≤ c && c ≤ 'z') || ('A' ≤ c && c ≤ 'Z') || ('0' ≤ c && c ≤ '9') ||
    c = '_' || c = '[' || c = ']'

/-- Sub-property class `[a-zA-Z0-9]` (capture group 3, after the dot). -/
def isAlnumChar (c : Char) : Bool :=
  ('a' ≤ c && c ≤ 'z') || ('A' ≤ c && c ≤ 'Z') || ('0' ≤ c && c ≤ '9')

/-- Jdbc-type class `[a-zA-Z_0-9]` (capture group 4, after the colon). -/
def isTypeChar (c : Char) : Bool := isAlnumChar c || c = '_'

/-- One match of the placeholder regex, holding the sigil (group 1), the
name (group 2), the sub-property without its dot (group 3 minus the dot)
and the jdbc type without its colon (group 4). -/
structure TokenMatch where
  sigil : Char
  tname : Str
  dotPart : Option Str
  typePart : Option Str
deriving DecidableEq

/-- The optional group `(\.[a-zA-Z0-9]+)?`: a dot followed by a
non-empty alphanumeric run, or nothing consumed. -/
def matchDot (r1 : Str) : Option Str × Str :=
  match r1 with
  | '.' :: r =>
    let d := r.takeWhile isAlnumChar
    if d.isEmpty then (none, r1) else (some d, r.dropWhile isAlnumChar)
  | _ => (none, r1)

/-- The optional group `(?::([a-zA-Z_0-9]+))?`: a colon followed by a
non-empty type-class run, or nothing consumed. -/
def matchColon (r2 : Str) : Option Str × Str :=
  match r2 with
  | ':' :: r =>
    let t := r.takeWhile isTypeChar
    if t.isEmpty then (none, r2) else (some t, r.dropWhile isTypeChar)
  | _ => (none, r2)

/-- Match the placeholder regex at the start of the input; on success
return the decomposed match and the remaining input. -/
def matchAt : Str → Option (TokenMatch × Str)
  | [] => none
  | c :: rest =>
    if isSigilChar c then
      let nm := rest.takeWhile isNameChar
      if nm.isEmpty then none
      else
        let dotres := matchDot (rest.dropWhile isNameChar)
        let typeres := matchColon dotres.2
        match typeres.2 with
        | c2 :: r4 => if c2 = c then some (⟨c, nm, dotres.1, typeres.1⟩, r4) else none
        | [] => none
    else none

/-- Global scan of `String.prototype.match` with the placeholder regex:
collect non-overlapping matches left to right.  The fuel argument is the
input length; every step consumes at least one character, so the fuel
never runs out when initialised that way. -/
def matchAllGo : Nat → Str → List TokenMatch
  | 0, _ => []
  | _ + 1, [] => []
  | n + 1, c :: cs =>
    match matchAt (c :: cs) with
    | some (m, rest) => m :: matchAllGo n rest
    | none => matchAllGo n cs

/-- All matches of the placeholder regex in a string, in order. -/
def matchAll (s : Str) : List TokenMatch := matchAllGo s.length s

/-- The text the regex consumed for a match (the full matched substring). -/
def tokenStr (m : TokenMatch) : Str :=
  m.sigil :: m.tname ++
    (match m.dotPart with | some d => '.' :: d | none => []) ++
    (match m.typePart with | some t => ':' :: t | none => []) ++ [m.sigil]

/-- The replacement the converter builds for one match:
`#` `{` name [ `.` sub ] [ `,jdbcType=` type ] `}`. -/
def rebuild (m : TokenMatch) : Str :=
  '#' :: lb :: m.tname ++
    (match m.dotPart with | some d => '.' :: d | none => []) ++
    (match m.typePart with | some t => str ",jdbcType=" ++ t | none => []) ++ [rb]

/-- `GetSubstitution` of the JavaScript specification, for a string
pattern or a regular expression without capture groups: in the
replacement string, a dollar followed by a dollar stands for one literal
dollar, dollar-ampersand for the matched substring, dollar-backquote for
the portion of the subject before the match, dollar-quote for the portion
after it, and any other dollar sequence (including a group reference,
since there is no group) is kept literally. -/
def getSubstitution (matched before after : Str) : Str → Str
  | [] => []
  | [c] => if c = '$' then ['$'] else [c]
  | c :: c2 :: rest2 =>
    if c = '$' then
      if c2 = '$' then '$' :: getSubstitution matched before after rest2
      else if c2 = '&' then matched ++ getSubstitution matched before after rest2
      else if c2 = bq then before ++ getSubstitution matched before after rest2
      else if c2 = sq then after ++ getSubstitution matched before after rest2
      else '$' :: c2 :: getSubstitution matched before after rest2
    else c :: getSubstitution matched before after (c2 :: rest2)

/-- The scan of `hay.replace(needle, repl)`.  `pre` accumulates the part
of the subject already passed over (the dollar-backquote portion at a
hit).  At the first occurrence of `needle` the replacement string is
processed through `getSubstitution`; an empty `needle` matches at
position zero, as in JavaScript. -/
def replaceFirstAux (needle repl : Str) : Str → Str → Str
  | pre, [] => if needle.isEmpty then getSubstitution [] pre [] repl else []
  | pre, c :: rest =>
    if needle.isPrefixOf (c :: rest) then
      getSubstitution needle pre ((c :: rest).drop needle.length) repl ++
        (c :: rest).drop needle.length
    else c :: replaceFirstAux needle repl (pre ++ [c]) rest

/-- JavaScript `hay.replace(needle, repl)` with a string pattern (or a
group-free regular expression applied once): replace the first occurrence
of `needle` by the replacement after dollar-pattern processing, or return
`hay` unchanged when there is none. -/
def replaceFirst (hay needle repl : Str) : Str := replaceFirstAux needle repl [] hay

/-- The replacement scan specialised to a dollar-free replacement string,
on which `getSubstitution` is the identity; `replaceFirst` collapses to
this form exactly when the replacement contains no dollar
(`replaceFirst_eq_simple` below). -/
def replaceFirstSimple (hay needle repl : Str) : Str :=
  match hay with
  | [] => if needle.isEmpty then repl else []
  | c :: rest =>
    if needle.isPrefixOf (c :: rest) then repl ++ (c :: rest).drop needle.length
    else c :: replaceFirstSimple rest needle repl

/-- `LINE_SEPARATOR` of the source. -/
def LINE_SEPARATOR : Char := '\n'

/-- `filterElementText`: trim, normalise CRLF to LF, then for every regex
match (in order) re-run the regex on the matched substring to recover its
groups and replace the first occurrence of the matched substring in the
working text by the rebuilt token.  On the re-run the source throws
(`regex.exec(matchStr) panic`) when no match is found; that branch is
unreachable for matches produced by `matchAll` on the same text and is
modelled as the identity step. -/
def filterElementText (text : Str) : Str :=
  let trimedText := crlfToLf (jsTrim text)
  let ms := matchAll trimedText
  ms.foldl
    (fun newText m =>
      match matchAt (tokenStr m) with
      | some (m2, _) => replaceFirst newText (tokenStr m) (rebuild m2)
      | none => newText)
    trimedText

/-! ## Data model -/

/-- The sentinel tag name marking a text-run node. -/
def TEXT_NODE_NAME : Str := str "__text__"

/-- The output tree node (`interface XmlElement`): tag name, attribute
map, ordered children, optional text payload. -/
inductive XmlElement where
  | mk : Str → Attrs → List XmlElement → Option Str → XmlElement

/-- Tag name of an output node. -/
def XmlElement.name : XmlElement → Str
  | .mk n _ _ _ => n

/-- Attribute map of an output node. -/
def XmlElement.attr : XmlElement → Attrs
  | .mk _ a _ _ => a

/-- Children of an output node. -/
def XmlElement.children : XmlElement → List XmlElement
  | .mk _ _ c _ => c

/-- Text payload of an output node. -/
def XmlElement.text : XmlElement → Option Str
  | .mk _ _ _ t => t

/-- Replace the text payload (the source mutates `element.text`). -/
def XmlElement.withText : XmlElement → Option Str → XmlElement
  | .mk n a c _, t => .mk n a c t

/-- A node of the xml2js parse tree as the converter reads it: `#name`
(tag name), `$` (attributes), `_` (character payload) and `$$` (ordered
children).  xml2js omits the `$` field on an element without attributes,
so the empty attribute list models that omitted (`undefined`) object; a
source read that would raise a `TypeError` on it is modelled as an
error. -/
inductive PNode where
  | mk : Str → Attrs → Option Str → List PNode → PNode

/-- The `#name` field of a parsed node. -/
def PNode.name : PNode → Str
  | .mk n _ _ _ => n

/-- The `$` field of a parsed node. -/
def PNode.attr : PNode → Attrs
  | .mk _ a _ _ => a

/-- The `_` field of a parsed node. -/
def PNode.text : PNode → Option Str
  | .mk _ _ t _ => t

/-- The `$$` field of a parsed node. -/
def PNode.children : PNode → List PNode
  | .mk _ _ _ c => c

/-- A parsed text-run node carrying the given characters. -/
def textPNode (t : Str) : PNode := .mk TEXT_NODE_NAME [] (some t) []

/-- Every way the conversion of one document can abort.  One constructor
per throw site of the source, carrying the data the source interpolates
into the error message; `fuelExhausted` is an artifact of the fuel-bounded
embedding and is never reached in the theorems below. -/
inductive ConvError where
  /-- `createXmlElement`: `Empty text node is not allowed`. -/
  | emptyTextNode
  /-- `parseProcedure`: `Cannot found 'parameterMap' by key '...'`. -/
  | cannotFindParameterMap (key : Str)
  /-- `parseProcedure`: `Found '?' in procedure but parameterMap '...' not found.` -/
  | foundQuestionButNoParameterMap (pmAttr : Option Str)
  /-- `createParameterMapParameter`: the JavaScript `TypeError` raised by
  `mode.toUpperCase()` when the `mode` attribute is absent. -/
  | modeUndefinedTypeError
  /-- The tree emitter raises `attr parameterType is null` when a
  parameter map declared without a `class` attribute reaches a procedure;
  the emitter is not modelled separately, so the error surfaces here. -/
  | nullParameterTypeAttr
  /-- The JavaScript `TypeError` of reading a property of `undefined`:
  xml2js omits the `$` object on an element without attributes, and
  `filterAttrsAndTranslate` immediately reads `obj[key]` from it. -/
  | undefinedAttrRead
  /-- Fuel exhaustion of the embedding (not a behaviour of the source). -/
  | fuelExhausted
deriving DecidableEq

/-- `createXmlElement`: constructing a text node whose text is falsy
(absent or empty) throws, otherwise build the node, defaulting missing
attribute and child arguments to empty. -/
def createXmlElement (name : Str) (attr : Attrs) (children : List XmlElement)
    (text : Option Str) : Except ConvError XmlElement :=
  if name = TEXT_NODE_NAME ∧ jsTruthyOpt text = false then .error .emptyTextNode
  else .ok (.mk name attr children text)

/-- One descriptor of a parameter map (`interface ParameterMapParameter`).
`property`, `jdbcType` and `javaType` keep the possibly-absent attribute
values they were built from; `mode` is a definite string after the IN
default of the constructor. -/
structure ParameterMapParameter where
  property : Option Str
  mode : Str
  jdbcType : Option Str
  javaType : Option Str
deriving DecidableEq

/-- `createParameterMapParameter`: calling `toUpperCase` on an absent
`mode` throws a `TypeError`; a present mode that is not case-insensitively
IN or OUT is replaced by the literal `IN`, and otherwise the original
spelling is kept verbatim. -/
def createParameterMapParameter (property : Option Str) (mode : Option Str)
    (jdbcType javaType : Option Str) : Except ConvError ParameterMapParameter :=
  match mode with
  | none => .error .modeUndefinedTypeError
  | some m =>
    .ok ⟨property,
      if jsToUpper m ≠ str "IN" ∧ jsToUpper m ≠ str "OUT" then str "IN" else m,
      jdbcType, javaType⟩

/-- A registered parameter map (`interface ParameterMap`).  The field
`class` of the source is spelled `pmclass`. -/
structure ParameterMap where
  id : Option Str
  pmclass : Option Str
  parameters : List ParameterMapParameter
deriving DecidableEq

/-- The structured bind token `parseProcedure` substitutes for one `?`:
newline, then `#` `{` property `,mode=` mode `,jdbcType=` jdbcType `}`. -/
def paramToken (p : ParameterMapParameter) : Str :=
  LINE_SEPARATOR :: '#' :: lb :: jsRender p.property ++ str ",mode=" ++ p.mode ++
    str ",jdbcType=" ++ jsRender p.jdbcType ++ [rb]

/-! ## Registries and the attribute alias filter -/

/-- The type-alias registry; values are the raw `type` attribute values,
which may be absent (`typeAlias` declarations missing the attribute). -/
abbrev TypeAliasReg := List (Str × Option Str)

/-- `MAY_ALIAS_ATTR` of the source. -/
def MAY_ALIAS_ATTR : List Str := [str "class", str "parameterClass", str "resultClass"]

/-- `NEED_CONVERTER` of the source, as a lookup function. -/
def NEED_CONVERTER (k : Str) : Option Str :=
  if k = str "class" then some (str "type")
  else if k = str "parameterClass" then some (str "parameterType")
  else if k = str "resultClass" then some (str "resultType")
  else none

/-- One iteration of the alias-resolution loop of
`filterAttrsAndTranslate`: when the key is present with a truthy value,
trim the value in place when trimming changes it, then replace it by the
registry entry for the trimmed value when that entry is present and
truthy. -/
def aliasStep (ta : TypeAliasReg) (o : Attrs) (key : Str) : Attrs :=
  match lookupJs o key with
  | some v =>
    if v ≠ [] then
      let trimValue := jsTrim v
      let o1 := if trimValue ≠ v then setJs o key trimValue else o
      match lookupJs ta trimValue with
      | some (some real) => if real ≠ [] then setJs o1 key real else o1
      | some none => o1
      | none => o1
    else o
  | none => o

/-- `filterAttrsAndTranslate`, first phase: the alias-resolution loop
over the fixed may-be-aliased keys. -/
def aliasPhase (ta : TypeAliasReg) (obj : Attrs) : Attrs :=
  MAY_ALIAS_ATTR.foldl (aliasStep ta) obj

/-- One iteration of the renaming loop of `filterAttrsAndTranslate`:
when `NEED_CONVERTER` maps the key and the key is present, delete the old
entry and write its value under the new name. -/
def renameStep (o : Attrs) (k : Str) : Attrs :=
  match NEED_CONVERTER k with
  | some k2 =>
    match lookupJs o k with
    | some v => setJs (delJs o k) k2 v
    | none => o
  | none => o

/-- `filterAttrsAndTranslate`, second phase: walk the keys present before
the phase runs and rename every key `NEED_CONVERTER` maps. -/
def renamePhase (obj : Attrs) : Attrs :=
  (obj.map (·.1)).foldl renameStep obj

/-- `filterAttrsAndTranslate`: alias resolution followed by key renaming. -/
def filterAttrsAndTranslate (ta : TypeAliasReg) (obj : Attrs) : Attrs :=
  renamePhase (aliasPhase ta obj)

/-- `mapObject`: iterate the entries of an object in insertion order,
skipping falsy keys, threading a state.  The source's key-mapper mutates a
fresh result object together with variables captured by closure; the state
type `α` carries both. -/
def mapObject {α : Type} (obj : Attrs) (init : α) (keyMapper : α → Str → Str → α) : α :=
  obj.foldl (fun a kv => if kv.1 = [] then a else keyMapper a kv.1 kv.2) init

/-! ## The statement body converter -/

/-- Run one step of the recovery regex `/#([a-zA-Z0-90]+)\[\]/` of the
loop tag: at each position, a `#` followed by a non-empty alphanumeric run
followed by the literal `[]` yields the run (the capture group); otherwise
the scan advances one character.  Fuel is the input length, consumed one
character per step. -/
def iterFindGo : Nat → Str → Option Str
  | 0, _ => none
  | _ + 1, [] => none
  | n + 1, c :: cs =>
    if c = '#' then
      let g := cs.takeWhile isAlnumChar
      if g ≠ [] then
        match cs.dropWhile isAlnumChar with
        | '[' :: ']' :: _ => some g
        | _ => iterFindGo n cs
      else iterFindGo n cs
    else iterFindGo n cs

/-- First match of the loop-collection recovery regex in a string. -/
def iterFind (t : Str) : Option Str := iterFindGo t.length t

/-- Loop-collection recovery: the capture group of the first child (in
order) whose truthy raw text matches the recovery regex. -/
def firstRecovered (children : List PNode) : Option Str :=
  children.findSome? (fun child =>
    match child.text with
    | some t => if t ≠ [] then iterFind t else none
    | none => none)

/-- Convert a list of source children in order, concatenating the output
elements each child contributes to the parent named `parentName`; the
first thrown error aborts (as the source's sequential loop does). -/
def runChildren (recurse : Str → PNode → Except ConvError (List XmlElement))
    (parentName : Str) (children : List PNode) : Except ConvError (List XmlElement) :=
  children.foldlM
    (fun acc child => do
      let r ← recurse parentName child
      pure (acc ++ r))
    []

/-- `parseAsIfTag`, the shared guard-to-`if` algorithm.  `recurse` is the
statement body converter the source reaches through `this`; the returned
list holds the elements the call appends to the parent.  When no truthy
`test` attribute was produced, the source pushes a bare text node carrying
the captured prepend text — `createXmlElement` throws when that text is
absent or blank — and splices the converted children into the parent.
Otherwise the `if` node is emitted and, when a prepend was captured and
the first converted child is a truthy text run, that text gains the
prepend as a suffix under a `set` parent and as a prefix (followed by one
space, with one more space appended after the original text) elsewhere. -/
def parseAsIfTag (recurse : Str → PNode → Except ConvError (List XmlElement))
    (parentName : Str) (attr : Attrs) (children : List PNode)
    (test : Str → Str) : Except ConvError (List XmlElement) :=
  let st := mapObject attr (([] : Attrs), (none : Option Str))
    (fun acc key originValue =>
      if originValue ≠ [] then
        let value := jsTrim originValue
        if key = str "prepend" then (acc.1, some value)
        else if key = str "property" then (setJs acc.1 (str "test") (test value), acc.2)
        else acc
      else acc)
  let newAttr := st.1
  let prependText :=
    match st.2 with
    | some p => if p ≠ [] then some (jsTrim p) else some p
    | none => none
  if jsTruthyOpt (lookupJs newAttr (str "test")) = false then do
    let textEl ← createXmlElement TEXT_NODE_NAME [] [] prependText
    let spliced ← runChildren recurse parentName children
    pure (textEl :: spliced)
  else do
    let converted ← runChildren recurse (str "if") children
    let adjusted :=
      match converted with
      | [] => []
      | mayText :: cs =>
        match prependText, mayText.text with
        | some p, some t0 =>
          if p ≠ [] ∧ t0 ≠ [] then
            if parentName = str "set" then
              mayText.withText (some (t0 ++ ' ' :: p)) :: cs
            else
              mayText.withText (some (p ++ ' ' :: (t0 ++ [' ']))) :: cs
          else mayText :: cs
        | _, _ => mayText :: cs
    pure [XmlElement.mk (str "if") newAttr adjusted none]

/-- `convertCommonSqlAndTags`, the recursive statement body converter,
with explicit recursion fuel.  `parentName` is the tag name of the output
element the results are appended to (the source reads `parent.name`).
Every non-text element is first run through `filterAttrsAndTranslate`,
which throws a `TypeError` when the element carried no attributes and
xml2js therefore produced no `$` object. -/
def convertCommonSqlAndTags : Nat → TypeAliasReg → Str → PNode →
    Except ConvError (List XmlElement)
  | 0, _, _, _ => .error .fuelExhausted
  | Nat.succ f, typeAlias, parentName, element =>
    let recurse : Str → PNode → Except ConvError (List XmlElement) :=
      fun pn c => convertCommonSqlAndTags f typeAlias pn c
    let elementName := jsTrim element.name
    if elementName = TEXT_NODE_NAME then
      match element.text with
      | some originText =>
        if originText ≠ [] ∧ jsTrim originText ≠ [] then do
          let e ← createXmlElement TEXT_NODE_NAME [] [] (some (filterElementText originText))
          pure [e]
        else pure []
      | none => pure []
    else
      let children := element.children
      -- an attribute-less element has no `$` object, and the source's
      -- unconditional `filterAttrsAndTranslate(attr)` call then reads a
      -- property of `undefined` and throws
      if element.attr = [] then .error .undefinedAttrRead else
      let attr := filterAttrsAndTranslate typeAlias element.attr
      if elementName = str "selectKey" then
        let newAttr := mapObject attr ([] : Attrs) (fun newObj key value =>
          if value ≠ [] then
            let trimValue := jsTrim value
            if key = str "resultClass" then
              setJs newObj (str "resultType")
                (jsToLower (replaceFirst trimValue (str "java.lang.") []))
            else if key = str "type" then
              setJs newObj (str "order")
                (if trimValue = str "post" then str "AFTER" else str "BEFORE")
            else setJs newObj key trimValue
          else newObj)
        do
          let converted ← runChildren recurse elementName children
          pure [XmlElement.mk elementName newAttr converted none]
      else if elementName = str "isNotEmpty" then
        parseAsIfTag recurse parentName attr children
          (fun value => value ++ str " != null and " ++ value ++ str " != " ++ [sq, sq])
      else if elementName = str "isNotNull" then
        parseAsIfTag recurse parentName attr children
          (fun value => value ++ str " != null")
      else if elementName = str "isEmpty" then
        parseAsIfTag recurse parentName attr children
          (fun value => value ++ str " == null or " ++ value ++ str " == " ++ [sq, sq])
      else if elementName = str "isNull" then
        parseAsIfTag recurse parentName attr children
          (fun value => value ++ str " == null")
      else if elementName = str "isEqual" then
        let cValue := lookupJs attr (str "compareValue")
        let plain : Bool :=
          match cValue with
          | some c => !c.isEmpty && (c == str "true" || c == str "false" || c.all Char.isDigit)
          | none => false
        if plain then
          parseAsIfTag recurse parentName attr children
            (fun value => value ++ str " == " ++ jsRender cValue)
        else
          parseAsIfTag recurse parentName attr children
            (fun value => sq :: value ++ str " == " ++ sq :: jsRender cValue ++ [sq])
      else if elementName = str "iterate" then
        let newAttr0 := mapObject attr ([] : Attrs) (fun newObj key value =>
          if value ≠ [] then
            let trimValue := jsTrim value
            if key = str "property" then setJs newObj (str "collection") trimValue
            else if key = str "conjunction" then setJs newObj (str "separator") trimValue
            else if key = str "open" ∨ key = str "close" then setJs newObj key trimValue
            else newObj   -- other loop attrs are dropped with a debug diagnostic
          else newObj)
        let newAttr1 := setJs newAttr0 (str "item") (str "listItem")
        let newAttr :=
          if jsTruthyOpt (lookupJs newAttr1 (str "collection")) then newAttr1
          else
            match firstRecovered children with
            | some g => setJs newAttr1 (str "collection") g
            | none => newAttr1  -- still missing: error diagnostic only, element emitted anyway
        do
          let converted ← runChildren recurse (str "foreach") children
          let willReplaced := jsRender (lookupJs newAttr (str "collection")) ++ str "[]"
          let replaced := converted.map (fun child =>
            match child.text with
            | some t =>
              if t ≠ [] then child.withText (some (replaceFirst t willReplaced (str "listItem")))
              else child
            | none => child)
          pure [XmlElement.mk (str "foreach") newAttr replaced none]
      else if elementName = str "dynamic" then
        let resp : Str × Attrs :=
          match lookupJs attr (str "prepend") with
          | none => (elementName, attr)
          | some p0 =>
            if p0 = [] then (elementName, attr)  -- falsy prepend: warn, keep the dynamic tag
            else
              let prepend := jsTrim p0
              if prepend = str "where" then (str "where", [])
              else if prepend = str "set" then (str "set", [])
              else
                let newAttr0 : Attrs := [(str "prefix", prepend)]
                let newAttr :=
                  if !children.isEmpty then
                    match children.find? (fun child =>
                      !(child.name == TEXT_NODE_NAME &&
                        (match child.text with
                         | none => true
                         | some t => (jsTrim t).isEmpty))) with
                    | some child =>
                      -- xml2js omits the attribute object on attribute-less
                      -- nodes; the Optional chain then yields nothing
                      match (if child.attr.isEmpty then none else some child.attr) with
                      | some atr =>
                        match lookupJs atr (str "prepend") with
                        | some p => setJs newAttr0 (str "prefixOverrides") p
                        | none => newAttr0
                      | none => newAttr0
                    | none => newAttr0
                  else newAttr0
                (str "trim", newAttr)
        do
          let converted ← runChildren recurse resp.1 children
          pure [XmlElement.mk resp.1 resp.2 converted none]
      else
        -- the include tag and unknown tags (the latter with an error
        -- diagnostic) share the passthrough shape
        do
          let converted ← runChildren recurse elementName children
          pure [XmlElement.mk elementName attr converted none]
termination_by structural fuel _ _ _ => fuel

/-! ## Root-level converters and the dispatcher -/

/-- `parseNearlyRootElements`: the converter for `insert`, `delete`,
`update`, `select` and `sql` root tags.  A truthy `remapResults`
attribute is removed with a warning. -/
def parseNearlyRootElements (fuel : Nat) (typeAlias : TypeAliasReg)
    (element : PNode) : Except ConvError XmlElement := do
  let elementName := jsTrim element.name
  let attr0 := filterAttrsAndTranslate typeAlias element.attr
  let attr :=
    if jsTruthyOpt (lookupJs attr0 (str "remapResults")) then delJs attr0 (str "remapResults")
    else attr0
  let converted ← runChildren
    (fun pn c => convertCommonSqlAndTags fuel typeAlias pn c) elementName element.children
  pure (XmlElement.mk elementName attr converted none)

/-- The `result[TEXT_NODE_NAME]` expression of `parseResultMap`.  The
source passes xml2js's by-name child grouping (an array) straight into
the `text` argument; a result child without text children yields
`undefined` there.  The non-empty case — which the emitter cannot render
— is modelled as the first text child's payload; every theorem below
exercises only result children without text children. -/
def textGroup (c : PNode) : Option Str :=
  match c.children.find? (fun k => k.name == TEXT_NODE_NAME) with
  | none => none
  | some k => k.text

/-- `parseResultMap`: keep only `result`/`id` children, upper-case a
truthy `jdbcType`, re-tag children carrying both `select` and `column` as
`association`, and drop the legacy `nullValue` attribute otherwise. -/
def parseResultMap (typeAlias : TypeAliasReg) (element : PNode) :
    Except ConvError XmlElement := do
  let attr := filterAttrsAndTranslate typeAlias element.attr
  let kids := element.children.filter (fun r => r.name == str "result" || r.name == str "id")
  let converted ← kids.mapM (fun result => do
    let a0 := result.attr
    let a1 :=
      match lookupJs a0 (str "jdbcType") with
      | some j => if j ≠ [] then setJs a0 (str "jdbcType") (jsToUpper j) else a0
      | none => a0
    if jsTruthyOpt (lookupJs a1 (str "select")) && jsTruthyOpt (lookupJs a1 (str "column")) then
      createXmlElement (str "association") a1 [] (textGroup result)
    else
      createXmlElement result.name (delJs a1 (str "nullValue")) [] (textGroup result))
  createXmlElement (str "resultMap") attr converted none

/-- The per-document registries of one conversion session. -/
structure ConvState where
  typeAlias : TypeAliasReg
  parameterMap : List (Str × ParameterMap)

/-- Both registries start empty for every document. -/
def emptyState : ConvState := ⟨[], []⟩

/-- `parseTypeAlias`: register `alias → type` (a missing attribute is the
JavaScript `undefined`, which coerces to the key text "undefined"). -/
def parseTypeAlias (st : ConvState) (element : PNode) : ConvState :=
  let key := jsRender (lookupJs element.attr (str "alias"))
  let value := lookupJs element.attr (str "type")
  { st with typeAlias := setJs st.typeAlias key value }

/-- `parseParameterMap`: register the descriptor list under the map's id,
normalising the well-known class alias `map`. -/
def parseParameterMap (st : ConvState) (element : PNode) :
    Except ConvError ConvState := do
  let attr := element.attr
  let cls0 := lookupJs attr (str "class")
  let cls := if cls0 = some (str "map") then some (str "java.util.Map") else cls0
  let params ← element.children.foldlM
    (fun acc child =>
      if child.name ≠ str "parameter" then pure acc
      else do
        let p ← createParameterMapParameter (lookupJs child.attr (str "property"))
          (lookupJs child.attr (str "mode")) (lookupJs child.attr (str "jdbcType"))
          (lookupJs child.attr (str "javaType"))
        pure (acc ++ [p]))
    []
  let resp : ParameterMap := ⟨lookupJs attr (str "id"), cls, params⟩
  pure { st with parameterMap := setJs st.parameterMap (jsRender resp.id) resp }

/-- The substitution loop of `parseProcedure`: each descriptor in order
replaces the first remaining `?` of the working text by its token. -/
def substQuestionMarks (t : Str) (ps : List ParameterMapParameter) : Str :=
  ps.foldl (fun acc p => replaceFirst acc ['?'] (paramToken p)) t

/-- `parseProcedure`: copy attributes, resolving a `parameterMap`
reference against the registry (throwing when absent) into a
`parameterType` attribute; concatenate the raw text of all immediate
children; when the result contains `?`, require a resolved parameter map
(throwing otherwise) and substitute its descriptors positionally; finally
run the placeholder rewriter over the text of the emitted `select`. -/
def parseProcedure (st : ConvState) (element : PNode) :
    Except ConvError XmlElement := do
  let attr := filterAttrsAndTranslate st.typeAlias element.attr
  let resolved ← attr.foldlM
    (fun (acc : Attrs × Option ParameterMap) kv => do
      if kv.1 = [] then pure acc
      else if kv.1 = str "parameterMap" then
        match lookupJs st.parameterMap kv.2 with
        | none => .error (.cannotFindParameterMap kv.2)
        | some pm =>
          match pm.pmclass with
          | some c => pure (setJs acc.1 (str "parameterType") c, some pm)
          | none => .error .nullParameterTypeAttr
      else pure (setJs acc.1 kv.1 kv.2, acc.2))
    (([] : Attrs), (none : Option ParameterMap))
  let procedureJoin := element.children.foldl (fun acc child => acc ++ jsRender child.text) []
  let substituted ←
    if procedureJoin.any (fun c => c == '?') then
      match resolved.2 with
      | none => .error (.foundQuestionButNoParameterMap (lookupJs attr (str "parameterMap")))
      | some pm => pure (substQuestionMarks procedureJoin pm.parameters)
    else pure procedureJoin
  pure (XmlElement.mk (str "select") resolved.1 [] (some (filterElementText substituted)))

/-- The root dispatcher: route one immediate child of the document root,
threading the registries.  Text runs at root are ignored and unknown root
tags are skipped with an error diagnostic. -/
def dispatchRoot (fuel : Nat) (st : ConvState) (tag : PNode) :
    Except ConvError (ConvState × List XmlElement) :=
  let tagName := tag.name
  if tagName = str "typeAlias" then .ok (parseTypeAlias st tag, [])
  else if tagName = str "resultMap" then
    (parseResultMap st.typeAlias tag).map (fun r => (st, [r]))
  else if tagName = str "sql" ∨ tagName = str "select" ∨ tagName = str "insert" ∨
      tagName = str "update" ∨ tagName = str "delete" then
    (parseNearlyRootElements fuel st.typeAlias tag).map (fun r => (st, [r]))
  else if tagName = str "parameterMap" then
    (parseParameterMap st tag).map (fun st2 => (st2, []))
  else if tagName = str "procedure" then
    (parseProcedure st tag).map (fun r => (st, [r]))
  else .ok (st, [])

/-- Dispatch a list of root children in document order from a given
registry state, accumulating the output element list; the first thrown
error aborts the whole document conversion with no output. -/
def parseDocAux (fuel : Nat) (st : ConvState) :
    List PNode → Except ConvError (List XmlElement)
  | [] => .ok []
  | tag :: rest => do
    let res ← dispatchRoot fuel st tag
    let esRest ← parseDocAux fuel res.1 rest
    pure (res.2 ++ esRest)

/-- `parse`: convert one document (given as the ordered list of the
root's immediate children), starting from empty registries. -/
def parse (fuel : Nat) (tags : List PNode) : Except ConvError (List XmlElement) :=
  parseDocAux fuel emptyState tags

/-! ## Notions used to state the claims -/

/-- A string drawable from the regex's name class, non-empty. -/
def isNameStr (s : Str) : Bool := !s.isEmpty && s.all isNameChar

/-- A string drawable from the regex's jdbc-type class, non-empty. -/
def isTypeStr (s : Str) : Bool := !s.isEmpty && s.all isTypeChar

/-- A string drawable from the regex's sub-property class, non-empty. -/
def isSubStr (s : Str) : Bool := !s.isEmpty && s.all isAlnumChar

/-- Number of literal `?` markers in a string. -/
def countQ (s : Str) : Nat := s.count '?'

/-- Split a string at its `?` markers (`n` markers yield `n + 1` pieces,
none of which contains `?`). -/
def splitQ : Str → List Str
  | [] => [[]]
  | c :: rest =>
    if c = '?' then [] :: splitQ rest
    else
      match splitQ rest with
      | s :: ss => (c :: s) :: ss
      | [] => [[c]]

/-- Interleave pieces and tokens: `s0 t0 s1 t1 …`, flattening whichever
list runs longer. -/
def interleave : List Str → List Str → Str
  | [], [] => []
  | [], t :: ts => t ++ interleave [] ts
  | s :: ss, [] => s ++ interleave ss []
  | s :: ss, t :: ts => s ++ t ++ interleave ss ts

/-! ## Supporting lemmas: objects as association lists -/

theorem lookupJs_cons {α : Type} (a : Str × α) (o : List (Str × α)) (k : Str) :
    lookupJs (a :: o) k = if a.1 = k then some a.2 else lookupJs o k := by
  by_cases h : a.1 = k <;> simp [lookupJs, List.find?_cons, h]

theorem lookupJs_cons_ne {α : Type} (k1 : Str) (v1 : α) (o : List (Str × α)) (k : Str)
    (h : ¬ k1 = k) : lookupJs ((k1, v1) :: o) k = lookupJs o k := by
  rw [lookupJs_cons, if_neg h]

theorem lookupJs_cons_eq {α : Type} (k1 : Str) (v1 : α) (o : List (Str × α)) (k : Str)
    (h : k1 = k) : lookupJs ((k1, v1) :: o) k = some v1 := by
  rw [lookupJs_cons, if_pos h]

theorem lookupJs_eq_none_iff {α : Type} (o : List (Str × α)) (k : Str) :
    lookupJs o k = none ↔ k ∉ o.map (·.1) := by
  induction o with
  | nil => simp [lookupJs]
  | cons a o ih =>
    rw [lookupJs_cons]
    by_cases h : a.1 = k
    · rw [if_pos h, List.map_cons, h]
      constructor
      · intro hn; exact absurd hn (Option.some_ne_none _)
      · intro hmem; exact absurd (List.mem_cons_self k _) hmem
    · rw [if_neg h, ih, List.map_cons]
      constructor
      · intro hn hmem
        rcases List.mem_cons.1 hmem with he | hm
        · exact h he.symm
        · exact hn hm
      · intro hn hm
        exact hn (List.mem_cons_of_mem _ hm)

theorem lookupJs_setJs_self {α : Type} (o : List (Str × α)) (k : Str) (v : α) :
    lookupJs (setJs o k v) k = some v := by
  unfold setJs
  by_cases h : o.any (fun p => p.1 == k) = true
  · rw [if_pos h]
    induction o with
    | nil => simp at h
    | cons a o ih =>
      by_cases ha : a.1 = k
      · simp [List.map_cons, ha, lookupJs_cons]
      · have hb : (a.1 == k) = false := by simp [ha]
        rw [List.map_cons, show (if (a.1 == k) = true then (k, v) else a) = a by rw [hb]; simp,
          lookupJs_cons, if_neg ha]
        apply ih
        simpa only [List.any_cons, hb, Bool.false_or] using h
  · rw [if_neg h]
    have h0 : lookupJs o k = none := by
      rw [lookupJs, Option.map_eq_none', List.find?_eq_none]
      intro x hx hpx
      exact h (List.any_eq_true.2 ⟨x, hx, hpx⟩)
    rw [lookupJs, List.find?_append]
    rw [lookupJs, Option.map_eq_none'] at h0
    simp [h0, List.find?_cons]

theorem lookupJs_setJs_ne {α : Type} (o : List (Str × α)) (k v2 : Str) (v : α)
    (hne : v2 ≠ k) : lookupJs (setJs o k v) v2 = lookupJs o v2 := by
  unfold setJs
  by_cases h : o.any (fun p => p.1 == k) = true
  · rw [if_pos h]
    clear h
    induction o with
    | nil => rfl
    | cons a o ih =>
      rw [List.map_cons, lookupJs_cons, lookupJs_cons]
      by_cases ha : a.1 = k
      · have hb : (a.1 == k) = true := by simp [ha]
        rw [show (if (a.1 == k) = true then (k, v) else a) = (k, v) by rw [hb]; simp]
        rw [if_neg (fun he : k = v2 => hne he.symm), if_neg (by rw [ha]; exact fun he => hne he.symm)]
        exact ih
      · have hb : (a.1 == k) = false := by simp [ha]
        rw [show (if (a.1 == k) = true then (k, v) else a) = a by rw [hb]; simp]
        by_cases hav : a.1 = v2
        · simp [hav]
        · rw [if_neg hav, if_neg hav]; exact ih
  · rw [if_neg h]
    rw [lookupJs, List.find?_append, lookupJs]
    have hkv : ¬ k = v2 := fun he => hne he.symm
    have : List.find? (fun p => p.1 == v2) [(k, v)] = none := by
      simp [List.find?_cons, hkv]
    rw [this, Option.or_none]

theorem lookupJs_delJs {α : Type} (o : List (Str × α)) (k d : Str) :
    lookupJs (delJs o k) d = if d = k then none else lookupJs o d := by
  induction o with
  | nil => simp [delJs, lookupJs]
  | cons a o ih =>
    unfold delJs at ih ⊢
    by_cases ha : a.1 = k
    · have hb : (a.1 == k) = true := by simp [ha]
      rw [List.filter_cons, show (!(a.1 == k)) = false by rw [hb]; rfl]
      simp only [Bool.false_eq_true, if_false]
      rw [ih, lookupJs_cons]
      by_cases hd : d = k
      · simp [hd]
      · rw [if_neg hd, if_neg hd, if_neg (by rw [ha]; exact fun he => hd he.symm)]
    · have hb : (a.1 == k) = false := by simp [ha]
      rw [List.filter_cons, show (!(a.1 == k)) = true by rw [hb]; rfl]
      simp only [if_true]
      rw [lookupJs_cons, lookupJs_cons, ih]
      by_cases hav : a.1 = d
      · have hdk : ¬(d = k) := by rw [← hav]; exact ha
        simp [hav, hdk]
      · rw [if_neg hav, if_neg hav]

/-! ## Supporting lemmas: the attribute alias filter (claim C8) -/

theorem NEED_CONVERTER_range {k k2 : Str} (h : NEED_CONVERTER k = some k2) :
    NEED_CONVERTER k2 = none := by
  unfold NEED_CONVERTER at h
  split_ifs at h with h1 h2 h3 <;> rw [Option.some.injEq] at h <;> rw [← h] <;> decide

theorem aliasStep_none (ta : TypeAliasReg) (o : Attrs) (key : Str)
    (h : lookupJs o key = none) : aliasStep ta o key = o := by
  unfold aliasStep; rw [h]

theorem renameStep_preserves_none (o : Attrs) (k d : Str)
    (hd : NEED_CONVERTER d ≠ none) (h : lookupJs o d = none) :
    lookupJs (renameStep o k) d = none := by
  unfold renameStep
  cases hk : NEED_CONVERTER k with
  | none => exact h
  | some k2 =>
    cases hv : lookupJs o k with
    | none => exact h
    | some v =>
      have hk2 : d ≠ k2 := by
        intro he; rw [he] at hd; exact hd (NEED_CONVERTER_range hk)
      rw [lookupJs_setJs_ne _ _ _ _ hk2, lookupJs_delJs]
      by_cases hdk : d = k
      · simp [hdk]
      · rw [if_neg hdk]; exact h

theorem renameFold_preserves_none (ks : List Str) (o : Attrs) (d : Str)
    (hd : NEED_CONVERTER d ≠ none) (h : lookupJs o d = none) :
    lookupJs (ks.foldl renameStep o) d = none := by
  induction ks generalizing o with
  | nil => exact h
  | cons k ks ih =>
    rw [List.foldl_cons]
    exact ih _ (renameStep_preserves_none o k d hd h)

theorem renameFold_kills (ks : List Str) (o : Attrs) (d d2 : Str)
    (hmem : d ∈ ks) (hd : NEED_CONVERTER d = some d2) :
    lookupJs (ks.foldl renameStep o) d = none := by
  induction ks generalizing o with
  | nil => cases hmem
  | cons k ks ih =>
    rw [List.foldl_cons]
    by_cases hkd : k = d
    · subst hkd
      have hstep : lookupJs (renameStep o k) k = none := by
        unfold renameStep; rw [hd]
        cases hv : lookupJs o k with
        | none => exact hv
        | some v =>
          have hne : k ≠ d2 := by
            intro he; rw [he] at hd; rw [NEED_CONVERTER_range hd] at hd; cases hd
          rw [lookupJs_setJs_ne _ _ _ _ hne, lookupJs_delJs, if_pos rfl]
      exact renameFold_preserves_none ks _ k (by rw [hd]; exact fun he => by cases he) hstep
    · have : d ∈ ks := by
        rcases List.mem_cons.1 hmem with h | h
        · exact absurd h.symm hkd
        · exact h
      exact ih _ this

theorem renameFold_id (ks : List Str) (o : Attrs)
    (h : ∀ k ∈ ks, NEED_CONVERTER k = none) : ks.foldl renameStep o = o := by
  induction ks generalizing o with
  | nil => rfl
  | cons k ks ih =>
    have hs : renameStep o k = o := by
      unfold renameStep; rw [h k (List.mem_cons_self k ks)]
    rw [List.foldl_cons, hs]
    exact ih o (fun k2 hk2 => h k2 (List.mem_cons_of_mem _ hk2))

theorem renamePhase_dom_none (o : Attrs) (d d2 : Str) (hd : NEED_CONVERTER d = some d2) :
    lookupJs (renamePhase o) d = none := by
  unfold renamePhase
  by_cases hm : d ∈ o.map (·.1)
  · exact renameFold_kills _ _ _ _ hm hd
  · exact renameFold_preserves_none _ _ _ (by rw [hd]; exact fun he => by cases he)
      ((lookupJs_eq_none_iff o d).2 hm)

/-- Claim C8.  Applying the Attribute Alias Filter twice to any attribute
set, over any type-alias registry state, yields the same attribute set as
applying it once: the rename phase removes every may-be-aliased key, so
the second application finds nothing to resolve and nothing to rename. -/
theorem claim8_alias_filter_idempotent (ta : TypeAliasReg) (o : Attrs) :
    filterAttrsAndTranslate ta (filterAttrsAndTranslate ta o) =
      filterAttrsAndTranslate ta o := by
  have hnone : ∀ d d2, NEED_CONVERTER d = some d2 →
      lookupJs (filterAttrsAndTranslate ta o) d = none := by
    intro d d2 hd
    exact renamePhase_dom_none _ _ _ hd
  have h1 : lookupJs (filterAttrsAndTranslate ta o) (str "class") = none :=
    hnone _ (str "type") (by rfl)
  have h2 : lookupJs (filterAttrsAndTranslate ta o) (str "parameterClass") = none :=
    hnone _ (str "parameterType") (by rfl)
  have h3 : lookupJs (filterAttrsAndTranslate ta o) (str "resultClass") = none :=
    hnone _ (str "resultType") (by rfl)
  have halias : aliasPhase ta (filterAttrsAndTranslate ta o) = filterAttrsAndTranslate ta o := by
    unfold aliasPhase MAY_ALIAS_ATTR
    rw [List.foldl_cons, aliasStep_none _ _ _ h1, List.foldl_cons,
      aliasStep_none _ _ _ h2, List.foldl_cons, aliasStep_none _ _ _ h3, List.foldl_nil]
  have hrename : renamePhase (filterAttrsAndTranslate ta o) = filterAttrsAndTranslate ta o := by
    unfold renamePhase
    apply renameFold_id
    intro k hk
    cases hnc : NEED_CONVERTER k with
    | none => rfl
    | some k2 =>
      exact absurd (hnone k k2 hnc)
        (fun he => ((lookupJs_eq_none_iff _ k).1 he) hk)
  conv_lhs => rw [filterAttrsAndTranslate, halias, hrename]

/-- Claim C2, evaluated at a failing input.  The claim says an `isEqual`
guard with property `status` and non-boolean, non-integer compare value
`Y` yields an `if` whose test is `status == 'Y'` with nothing else added.
The code's template for that branch carries a stray leading single quote,
so the emitted test is `'status == 'Y'`; the second conjunct records that
this differs from the test the claim prescribes. -/
theorem claim2_isEqual_quote_bug_eval :
    convertCommonSqlAndTags 2 [] (str "select")
      (.mk (str "isEqual")
        [(str "property", str "status"), (str "compareValue", str "Y")] none []) =
      .ok [XmlElement.mk (str "if")
        [(str "test", sq :: str "status == " ++ sq :: str "Y" ++ [sq])] [] none] ∧
    sq :: str "status == " ++ sq :: str "Y" ++ [sq] ≠
      str "status == " ++ sq :: str "Y" ++ [sq] :=
  ⟨rfl, by decide⟩

/-- Claim C4, evaluated at a failing input.  The claim says a guard with
no `property` attribute — even one with no `prepend` attribute either —
degrades gracefully with only a diagnostic.  On such a guard the source
pushes a text node whose text is the captured prepend, which is
`undefined` here, and `createXmlElement` throws
`Empty text node is not allowed`, aborting the conversion. -/
theorem claim4_missing_property_throws_eval :
    convertCommonSqlAndTags 3 [] (str "where")
      (.mk (str "isNotEmpty") [(str "someAttr", str "x")] none [textPNode (str "y")]) =
      .error .emptyTextNode := rfl

/-! ## Supporting lemmas: the placeholder rewriter (claim C1) -/

theorem takeWhile_append_eq (p : Char → Bool) (xs : Str) (y : Char) (zs : Str)
    (h1 : ∀ c ∈ xs, p c = true) (h2 : p y = false) :
    (xs ++ y :: zs).takeWhile p = xs := by
  induction xs with
  | nil => simp [List.takeWhile_cons, h2]
  | cons a xs ih =>
    rw [List.cons_append, List.takeWhile_cons, if_pos (h1 a (List.mem_cons_self a xs)),
      ih (fun c hc => h1 c (List.mem_cons_of_mem _ hc))]

theorem dropWhile_append_eq (p : Char → Bool) (xs : Str) (y : Char) (zs : Str)
    (h1 : ∀ c ∈ xs, p c = true) (h2 : p y = false) :
    (xs ++ y :: zs).dropWhile p = y :: zs := by
  induction xs with
  | nil => simp [List.dropWhile_cons, h2]
  | cons a xs ih =>
    rw [List.cons_append, List.dropWhile_cons, if_pos (h1 a (List.mem_cons_self a xs)),
      ih (fun c hc => h1 c (List.mem_cons_of_mem _ hc))]

theorem isNameStr_ne (N : Str) (h : isNameStr N = true) : N.isEmpty = false := by
  unfold isNameStr at h
  rw [Bool.and_eq_true] at h
  cases hne : N.isEmpty
  · rfl
  · rw [hne] at h; exact absurd h.1 (by decide)

theorem isNameStr_all (N : Str) (h : isNameStr N = true) :
    ∀ c ∈ N, isNameChar c = true := by
  unfold isNameStr at h
  rw [Bool.and_eq_true] at h
  exact List.all_eq_true.1 h.2

theorem isTypeStr_ne (T : Str) (h : isTypeStr T = true) : T.isEmpty = false := by
  unfold isTypeStr at h
  rw [Bool.and_eq_true] at h
  cases hne : T.isEmpty
  · rfl
  · rw [hne] at h; exact absurd h.1 (by decide)

theorem isTypeStr_all (T : Str) (h : isTypeStr T = true) :
    ∀ c ∈ T, isTypeChar c = true := by
  unfold isTypeStr at h
  rw [Bool.and_eq_true] at h
  exact List.all_eq_true.1 h.2

theorem isSubStr_ne (S : Str) (h : isSubStr S = true) : S.isEmpty = false := by
  unfold isSubStr at h
  rw [Bool.and_eq_true] at h
  cases hne : S.isEmpty
  · rfl
  · rw [hne] at h; exact absurd h.1 (by decide)

theorem isSubStr_all (S : Str) (h : isSubStr S = true) :
    ∀ c ∈ S, isAlnumChar c = true := by
  unfold isSubStr at h
  rw [Bool.and_eq_true] at h
  exact List.all_eq_true.1 h.2

theorem matchAt_hash_type (N T : Str) (hN : isNameStr N = true) (hT : isTypeStr T = true) :
    matchAt ('#' :: (N ++ ':' :: (T ++ ['#']))) = some (⟨'#', N, none, some T⟩, []) := by
  rw [matchAt]
  rw [takeWhile_append_eq _ _ _ _ (isNameStr_all N hN) (by decide),
    dropWhile_append_eq _ _ _ _ (isNameStr_all N hN) (by decide)]
  rw [if_pos (by decide)]
  simp only [isNameStr_ne N hN, Bool.false_eq_true, if_false]
  rw [show matchDot (':' :: (T ++ ['#'])) = (none, ':' :: (T ++ ['#'])) from rfl]
  rw [show matchColon ((none, ':' :: (T ++ ['#'])).2) =
      (let t := (T ++ ['#']).takeWhile isTypeChar
       if t.isEmpty then (none, ':' :: (T ++ ['#']))
       else (some t, (T ++ ['#']).dropWhile isTypeChar)) from rfl]
  rw [takeWhile_append_eq _ _ _ _ (isTypeStr_all T hT) (by decide),
    dropWhile_append_eq _ _ _ _ (isTypeStr_all T hT) (by decide)]
  simp only [isTypeStr_ne T hT, Bool.false_eq_true, if_false]
  rfl

theorem matchAt_dollar (N : Str) (hN : isNameStr N = true) :
    matchAt ('$' :: (N ++ ['$'])) = some (⟨'$', N, none, none⟩, []) := by
  rw [matchAt]
  rw [show (['$'] : Str) = '$' :: [] from rfl]
  rw [takeWhile_append_eq _ _ _ _ (isNameStr_all N hN) (by decide),
    dropWhile_append_eq _ _ _ _ (isNameStr_all N hN) (by decide)]
  rw [if_pos (by decide)]
  simp only [isNameStr_ne N hN, Bool.false_eq_true, if_false]
  rfl

theorem matchAt_hash_dot (N S : Str) (hN : isNameStr N = true) (hS : isSubStr S = true) :
    matchAt ('#' :: (N ++ '.' :: (S ++ ['#']))) = some (⟨'#', N, some S, none⟩, []) := by
  rw [matchAt]
  rw [takeWhile_append_eq _ _ _ _ (isNameStr_all N hN) (by decide),
    dropWhile_append_eq _ _ _ _ (isNameStr_all N hN) (by decide)]
  rw [if_pos (by decide)]
  simp only [isNameStr_ne N hN, Bool.false_eq_true, if_false]
  rw [show matchDot ('.' :: (S ++ ['#'])) =
      (let d := (S ++ ['#']).takeWhile isAlnumChar
       if d.isEmpty then (none, '.' :: (S ++ ['#']))
       else (some d, (S ++ ['#']).dropWhile isAlnumChar)) from rfl]
  rw [takeWhile_append_eq _ _ _ _ (isSubStr_all S hS) (by decide),
    dropWhile_append_eq _ _ _ _ (isSubStr_all S hS) (by decide)]
  simp only [isSubStr_ne S hS, Bool.false_eq_true, if_false]
  rfl

theorem dropWhile_eq_self_of_head (p : Char → Bool) (l : Str)
    (h : ∀ c, l.head? = some c → p c = false) : l.dropWhile p = l := by
  cases l with
  | nil => rfl
  | cons a l => rw [List.dropWhile_cons, h a rfl]; simp

theorem jsTrim_eq_self (l : Str)
    (h1 : ∀ c, l.head? = some c → isJsSpace c = false)
    (h2 : ∀ c, l.getLast? = some c → isJsSpace c = false) : jsTrim l = l := by
  unfold jsTrim
  rw [dropWhile_eq_self_of_head _ _ h1]
  rw [dropWhile_eq_self_of_head _ _ (fun c hc => h2 c (by rwa [List.head?_reverse] at hc))]
  exact List.reverse_reverse l

theorem crlfToLf_eq_self (l : Str) (h : '\r' ∉ l) : crlfToLf l = l := by
  induction l with
  | nil => rfl
  | cons a l ih =>
    cases l with
    | nil => rfl
    | cons b l2 =>
      have ha : ¬ (a = '\r' ∧ b = '\n') := by
        intro hc
        exact h (by rw [hc.1]; exact List.mem_cons_self _ _)
      have hi : crlfToLf (b :: l2) = b :: l2 :=
        ih (fun hm => h (List.mem_cons_of_mem _ hm))
      rw [crlfToLf, if_neg ha, hi]

theorem isPrefixOf_rfl (l : Str) : l.isPrefixOf l = true :=
  List.isPrefixOf_iff_prefix.2 (List.prefix_refl l)

theorem getSubstitution_id (m b a rep : Str) (h : '$' ∉ rep) :
    getSubstitution m b a rep = rep := by
  induction rep with
  | nil => rfl
  | cons c rest ih =>
    have hc : ¬ c = '$' := fun he => h (he ▸ List.mem_cons_self c rest)
    cases rest with
    | nil => rw [getSubstitution, if_neg hc]
    | cons c2 rest2 =>
      rw [getSubstitution, if_neg hc, ih (fun hm => h (List.mem_cons_of_mem _ hm))]

theorem replaceFirstAux_eq_simple (needle repl : Str) (h : '$' ∉ repl) :
    ∀ pre hay, replaceFirstAux needle repl pre hay = replaceFirstSimple hay needle repl := by
  intro pre hay
  induction hay generalizing pre with
  | nil =>
    rw [replaceFirstAux, replaceFirstSimple]
    by_cases hn : needle.isEmpty = true
    · rw [if_pos hn, if_pos hn, getSubstitution_id _ _ _ _ h]
    · rw [if_neg hn, if_neg hn]
  | cons c rest ih =>
    rw [replaceFirstAux, replaceFirstSimple]
    by_cases hp : needle.isPrefixOf (c :: rest) = true
    · rw [if_pos hp, if_pos hp, getSubstitution_id _ _ _ _ h]
    · rw [if_neg hp, if_neg hp, ih]

theorem replaceFirst_eq_simple (hay needle repl : Str) (h : '$' ∉ repl) :
    replaceFirst hay needle repl = replaceFirstSimple hay needle repl :=
  replaceFirstAux_eq_simple needle repl h [] hay

theorem replaceFirstSimple_self (l r : Str) (h : l ≠ []) : replaceFirstSimple l l r = r := by
  cases l with
  | nil => exact absurd rfl h
  | cons c rest =>
    rw [replaceFirstSimple, if_pos (isPrefixOf_rfl (c :: rest))]
    simp [List.drop_length]

theorem matchAllGo_nil (n : Nat) : matchAllGo n [] = [] := by
  cases n <;> rfl

theorem matchAll_single (s : Str) (m : TokenMatch)
    (hm : matchAt s = some (m, [])) : matchAll s = [m] := by
  unfold matchAll
  cases s with
  | nil => cases hm
  | cons c cs =>
    rw [List.length_cons, matchAllGo, hm]
    simp [matchAllGo_nil]

theorem all_takeWhile (p : Char → Bool) (l : Str) :
    ∀ c ∈ l.takeWhile p, p c = true := by
  induction l with
  | nil => simp
  | cons a l ih =>
    rw [List.takeWhile_cons]
    by_cases hp : p a = true
    · rw [if_pos hp]
      intro c hc
      rcases List.mem_cons.1 hc with he | hm
      · rw [he]; exact hp
      · exact ih c hm
    · rw [if_neg hp]
      intro c hc
      cases hc

theorem matchDot_chars (r1 d : Str) (r2 : Str)
    (h : matchDot r1 = (some d, r2)) : ∀ c ∈ d, isAlnumChar c = true := by
  unfold matchDot at h
  split at h
  · rename_i r
    by_cases he : (r.takeWhile isAlnumChar).isEmpty = true
    · rw [if_pos he] at h
      rw [Prod.mk.injEq] at h
      cases h.1
    · rw [if_neg he] at h
      rw [Prod.mk.injEq] at h
      have h1 := h.1
      injection h1 with h1
      rw [← h1]
      exact all_takeWhile isAlnumChar r
  · rw [Prod.mk.injEq] at h
    cases h.1

theorem matchColon_chars (r1 tp : Str) (r2 : Str)
    (h : matchColon r1 = (some tp, r2)) : ∀ c ∈ tp, isTypeChar c = true := by
  unfold matchColon at h
  split at h
  · rename_i r
    by_cases he : (r.takeWhile isTypeChar).isEmpty = true
    · rw [if_pos he] at h
      rw [Prod.mk.injEq] at h
      cases h.1
    · rw [if_neg he] at h
      rw [Prod.mk.injEq] at h
      have h1 := h.1
      injection h1 with h1
      rw [← h1]
      exact all_takeWhile isTypeChar r
  · rw [Prod.mk.injEq] at h
    cases h.1

theorem matchAt_parts (s : Str) (m : TokenMatch) (r : Str)
    (h : matchAt s = some (m, r)) :
    (∀ c ∈ m.tname, isNameChar c = true) ∧
    (∀ d, m.dotPart = some d → ∀ c ∈ d, isAlnumChar c = true) ∧
    (∀ tp, m.typePart = some tp → ∀ c ∈ tp, isTypeChar c = true) := by
  cases s with
  | nil => rw [matchAt] at h; cases h
  | cons c rest =>
    rw [matchAt] at h
    by_cases hs : isSigilChar c = true
    · rw [if_pos hs] at h
      by_cases he : (rest.takeWhile isNameChar).isEmpty = true
      · rw [if_pos he] at h; cases h
      · rw [if_neg he] at h
        cases hmd : matchDot (List.dropWhile isNameChar rest) with
        | mk od r2 =>
          simp only [hmd] at h
          cases hmc : matchColon r2 with
          | mk ot r3 =>
            simp only [hmc] at h
            split at h
            · rename_i c2 r4
              by_cases hc2 : c2 = c
              · rw [if_pos hc2] at h
                injection h with h
                rw [Prod.mk.injEq] at h
                rw [← h.1]
                refine ⟨all_takeWhile isNameChar rest, ?_, ?_⟩
                · intro d hd
                  simp only at hd
                  rw [hd] at hmd
                  exact matchDot_chars _ _ _ hmd
                · intro tp htp
                  simp only at htp
                  rw [htp] at hmc
                  exact matchColon_chars _ _ _ hmc
              · rw [if_neg hc2] at h; cases h
            · cases h
    · rw [if_neg hs] at h; cases h
theorem rebuild_qfree (s : Str) (m : TokenMatch) (r : Str)
    (h : matchAt s = some (m, r)) : '?' ∉ rebuild m := by
  obtain ⟨hname, hdot, htype⟩ := matchAt_parts s m r h
  intro hmem
  unfold rebuild at hmem
  rcases List.mem_cons.1 hmem with he | hmem2
  · cases he
  rcases List.mem_cons.1 hmem2 with he | hmem3
  · cases he
  rcases List.mem_append.1 hmem3 with h4 | h5
  · rcases List.mem_append.1 h4 with h6 | h7
    · rcases List.mem_append.1 h6 with h8 | h9
      · have := hname _ h8
        exact absurd this (by decide)
      · cases hd : m.dotPart with
        | none => rw [hd] at h9; cases h9
        | some d =>
          rw [hd] at h9
          rcases List.mem_cons.1 h9 with he | hm
          · cases he
          · exact absurd (hdot d hd _ hm) (by decide)
    · cases htp : m.typePart with
      | none => rw [htp] at h7; cases h7
      | some tp =>
        rw [htp] at h7
        rcases List.mem_append.1 h7 with ha | hb
        · revert ha; decide
        · exact absurd (htype tp htp _ hb) (by decide)
  · rw [List.mem_singleton] at h5
    cases h5

theorem rebuild_dollarfree (s : Str) (m : TokenMatch) (r : Str)
    (h : matchAt s = some (m, r)) : '$' ∉ rebuild m := by
  obtain ⟨hname, hdot, htype⟩ := matchAt_parts s m r h
  intro hmem
  unfold rebuild at hmem
  rcases List.mem_cons.1 hmem with he | hmem2
  · cases he
  rcases List.mem_cons.1 hmem2 with he | hmem3
  · cases he
  rcases List.mem_append.1 hmem3 with h4 | h5
  · rcases List.mem_append.1 h4 with h6 | h7
    · rcases List.mem_append.1 h6 with h8 | h9
      · have := hname _ h8
        exact absurd this (by decide)
      · cases hd : m.dotPart with
        | none => rw [hd] at h9; cases h9
        | some d =>
          rw [hd] at h9
          rcases List.mem_cons.1 h9 with he | hm
          · cases he
          · exact absurd (hdot d hd _ hm) (by decide)
    · cases htp : m.typePart with
      | none => rw [htp] at h7; cases h7
      | some tp =>
        rw [htp] at h7
        rcases List.mem_append.1 h7 with ha | hb
        · revert ha; decide
        · exact absurd (htype tp htp _ hb) (by decide)
  · rw [List.mem_singleton] at h5
    cases h5

/-- Helper for claim C1: on a text that is exactly one placeholder token,
already trimmed and CRLF-free, the rewriter returns the rebuilt token. -/
theorem filterElementText_single_token (t1 : Str) (m : TokenMatch)
    (hne : t1 ≠ []) (htrim : jsTrim t1 = t1) (hcrlf : crlfToLf t1 = t1)
    (hm : matchAt t1 = some (m, [])) (htok : tokenStr m = t1) :
    filterElementText t1 = rebuild m := by
  simp only [filterElementText, htrim, hcrlf, matchAll_single t1 m hm,
    List.foldl_cons, List.foldl_nil, htok, hm]
  rw [replaceFirst_eq_simple _ _ _ (rebuild_dollarfree _ _ _ hm)]
  exact replaceFirstSimple_self t1 (rebuild m) hne

theorem jsTrim_token (c : Char) (mid : Str) (d : Char)
    (hc : isJsSpace c = false) (hd : isJsSpace d = false) :
    jsTrim (c :: (mid ++ [d])) = c :: (mid ++ [d]) := by
  apply jsTrim_eq_self
  · intro x hx
    rw [List.head?_cons, Option.some.injEq] at hx
    rw [← hx]; exact hc
  · intro x hx
    have hlast : (c :: (mid ++ [d])).getLast? = some d := by
      rw [show c :: (mid ++ [d]) = (c :: mid) ++ [d] by simp, List.getLast?_concat]
    rw [hlast, Option.some.injEq] at hx
    rw [← hx]; exact hd

theorem crlf_token (c : Char) (mid : Str) (d : Char) (hc : c ≠ '\r') (hd : d ≠ '\r')
    (hmid : ∀ x ∈ mid, x ≠ '\r') : crlfToLf (c :: (mid ++ [d])) = c :: (mid ++ [d]) := by
  apply crlfToLf_eq_self
  intro hmem
  rcases List.mem_cons.1 hmem with he | hm
  · exact hc he.symm
  · rcases List.mem_append.1 hm with h1 | h2
    · exact hmid _ h1 rfl
    · rw [List.mem_singleton] at h2
      exact hd h2.symm

/-- Claim C1.  For any name `N`, jdbc type `T` and sub-property `S` drawn
from the regex's character classes, the Placeholder Rewriter turns the
token `#N:T#` into `#` `{` `N,jdbcType=T` `}`, the token `$N$` into
`#` `{` `N` `}` and the token `#N.sub#` into `#` `{` `N.sub` `}` with the
dotted segment preserved verbatim; a text whose normalised form contains
no token of the placeholder shape is returned unchanged apart from
trimming and CRLF-to-LF normalisation. -/
theorem claim1_placeholder_rewriter (N T S t : Str)
    (hN : isNameStr N = true) (hT : isTypeStr T = true) (hS : isSubStr S = true)
    (ht : matchAll (crlfToLf (jsTrim t)) = []) :
    filterElementText ('#' :: (N ++ ':' :: (T ++ ['#']))) =
      '#' :: lb :: N ++ str ",jdbcType=" ++ T ++ [rb] ∧
    filterElementText ('$' :: (N ++ ['$'])) = '#' :: lb :: N ++ [rb] ∧
    filterElementText ('#' :: (N ++ '.' :: (S ++ ['#']))) =
      '#' :: lb :: N ++ '.' :: S ++ [rb] ∧
    filterElementText t = crlfToLf (jsTrim t) := by
  refine ⟨?_, ?_, ?_, ?_⟩
  · have e1 : '#' :: (N ++ ':' :: (T ++ ['#'])) = '#' :: ((N ++ ':' :: T) ++ ['#']) := by simp
    have hmid : ∀ x ∈ N ++ ':' :: T, x ≠ '\r' := by
      intro x hx
      rcases List.mem_append.1 hx with h1 | h2
      · intro he; subst he
        exact absurd (isNameStr_all N hN _ h1) (by decide)
      · rcases List.mem_cons.1 h2 with he | h3
        · exact he ▸ (by decide : (':' : Char) ≠ '\r')
        · intro he; subst he
          exact absurd (isTypeStr_all T hT _ h3) (by decide)
    rw [e1, filterElementText_single_token _ ⟨'#', N, none, some T⟩ (List.cons_ne_nil _ _)
      (jsTrim_token '#' (N ++ ':' :: T) '#' (by decide) (by decide))
      (crlf_token '#' (N ++ ':' :: T) '#' (by decide) (by decide) hmid)
      (by rw [← e1]; exact matchAt_hash_type N T hN hT) (by simp [tokenStr])]
    simp [rebuild]
  · have hmid : ∀ x ∈ N, x ≠ '\r' := by
      intro x hx he; subst he
      exact absurd (isNameStr_all N hN _ hx) (by decide)
    rw [filterElementText_single_token _ ⟨'$', N, none, none⟩ (List.cons_ne_nil _ _)
      (jsTrim_token '$' N '$' (by decide) (by decide))
      (crlf_token '$' N '$' (by decide) (by decide) hmid)
      (matchAt_dollar N hN) (by simp [tokenStr])]
    simp [rebuild]
  · have e3 : '#' :: (N ++ '.' :: (S ++ ['#'])) = '#' :: ((N ++ '.' :: S) ++ ['#']) := by simp
    have hmid : ∀ x ∈ N ++ '.' :: S, x ≠ '\r' := by
      intro x hx
      rcases List.mem_append.1 hx with h1 | h2
      · intro he; subst he
        exact absurd (isNameStr_all N hN _ h1) (by decide)
      · rcases List.mem_cons.1 h2 with he | h3
        · exact he ▸ (by decide : ('.' : Char) ≠ '\r')
        · intro he; subst he
          exact absurd (isSubStr_all S hS _ h3) (by decide)
    rw [e3, filterElementText_single_token _ ⟨'#', N, some S, none⟩ (List.cons_ne_nil _ _)
      (jsTrim_token '#' (N ++ '.' :: S) '#' (by decide) (by decide))
      (crlf_token '#' (N ++ '.' :: S) '#' (by decide) (by decide) hmid)
      (by rw [← e3]; exact matchAt_hash_dot N S hN hS) (by simp [tokenStr])]
    simp [rebuild]
  · simp only [filterElementText, ht, List.foldl_nil]

/-- Witness for claim C1 at `N = name`, `T = VARCHAR`, `S = sub` and a
token-free text. -/
theorem claim1_placeholder_rewriter_witness :
    filterElementText ('#' :: (str "name" ++ ':' :: (str "VARCHAR" ++ ['#']))) =
      '#' :: lb :: str "name" ++ str ",jdbcType=" ++ str "VARCHAR" ++ [rb] ∧
    filterElementText ('$' :: (str "name" ++ ['$'])) = '#' :: lb :: str "name" ++ [rb] ∧
    filterElementText ('#' :: (str "name" ++ '.' :: (str "sub" ++ ['#']))) =
      '#' :: lb :: str "name" ++ '.' :: str "sub" ++ [rb] ∧
    filterElementText (str " SELECT 1 FROM T ") =
      crlfToLf (jsTrim (str " SELECT 1 FROM T ")) :=
  claim1_placeholder_rewriter (str "name") (str "VARCHAR") (str "sub")
    (str " SELECT 1 FROM T ") (by decide) (by decide) (by decide) (by decide)



/-! ## Claim C3: prepend adjustment of the guard-to-if algorithm -/

theorem crlfToLf_ne_nil (l : Str) (h : l ≠ []) : crlfToLf l ≠ [] := by
  cases l with
  | nil => exact absurd rfl h
  | cons a l =>
    cases l with
    | nil => simp [crlfToLf]
    | cons b l2 =>
      rw [crlfToLf]
      by_cases hc : a = '\r' ∧ b = '\n'
      · rw [if_pos hc]; simp
      · rw [if_neg hc]; simp

theorem replaceFirstSimple_ne_nil (hay needle repl : Str) (hh : hay ≠ []) (hr : repl ≠ []) :
    replaceFirstSimple hay needle repl ≠ [] := by
  cases hay with
  | nil => exact absurd rfl hh
  | cons c rest =>
    rw [replaceFirstSimple]
    by_cases hp : needle.isPrefixOf (c :: rest) = true
    · rw [if_pos hp]
      simp [hr]
    · rw [if_neg hp]
      simp

theorem jsTrim_ne_nil_of (t : Str) (h : jsTrim t ≠ []) : t ≠ [] := by
  intro he; rw [he] at h; exact h rfl

theorem filterElementText_ne_nil (t : Str) (h : jsTrim t ≠ []) :
    filterElementText t ≠ [] := by
  simp only [filterElementText]
  have h0 : crlfToLf (jsTrim t) ≠ [] := crlfToLf_ne_nil _ h
  generalize crlfToLf (jsTrim t) = base at h0 ⊢
  generalize matchAll base = ms
  induction ms generalizing base with
  | nil => simpa using h0
  | cons m ms ih =>
    rw [List.foldl_cons]
    cases hm : matchAt (tokenStr m) with
    | none => simp only [hm]; exact ih _ h0
    | some p =>
      simp only [hm]
      exact ih _ (by
        rw [replaceFirst_eq_simple _ _ _ (rebuild_dollarfree _ _ _ (by rw [hm]))]
        exact replaceFirstSimple_ne_nil _ _ _ h0 (by simp [rebuild]))

theorem convertText_eval (f : Nat) (ta : TypeAliasReg) (pn t : Str)
    (ht : jsTrim t ≠ []) :
    convertCommonSqlAndTags (f + 1) ta pn (textPNode t) =
      .ok [XmlElement.mk TEXT_NODE_NAME [] [] (some (filterElementText t))] := by
  have htne : t ≠ [] := jsTrim_ne_nil_of t ht
  have hft : filterElementText t ≠ [] := filterElementText_ne_nil t ht
  rw [convertCommonSqlAndTags]
  simp only [textPNode, PNode.name, PNode.text]
  rw [show jsTrim TEXT_NODE_NAME = TEXT_NODE_NAME from by decide]
  rw [if_pos rfl, if_pos ⟨htne, ht⟩]
  rw [show createXmlElement TEXT_NODE_NAME [] [] (some (filterElementText t)) =
      .ok (XmlElement.mk TEXT_NODE_NAME [] [] (some (filterElementText t))) from ?_]
  · rfl
  · unfold createXmlElement
    rw [if_neg]
    intro hco
    have h2 := hco.2
    simp only [jsTruthyOpt] at h2
    rw [show (filterElementText t).isEmpty = false from by
      cases hfe : (filterElementText t) with
      | nil => exact absurd hfe hft
      | cons a l => rfl] at h2
    cases h2

/-- Claim C3, amended.  For a guard carrying `prepend` and `property`
whose rewritten `if` node starts with a truthy text run: under a `set`
parent the prepend text is appended as a suffix after one space; in every
other parent context the emitted text is the prepend text, one space, the
original text and one trailing space — there is no space before the
prepend text. -/
theorem claim3_amended (n : Nat) (ta : TypeAliasReg) (parentName P R t : Str)
    (test : Str → Str) (hR : jsTrim R = R) (hRne : R ≠ []) (hPne : P ≠ [])
    (htest : test (jsTrim P) ≠ []) (ht : jsTrim t ≠ []) :
    parseAsIfTag (convertCommonSqlAndTags (n + 1) ta) parentName
      [(str "prepend", R), (str "property", P)] [textPNode t] test =
      .ok [XmlElement.mk (str "if") [(str "test", test (jsTrim P))]
        [XmlElement.mk TEXT_NODE_NAME [] []
          (some (if parentName = str "set"
                 then filterElementText t ++ ' ' :: R
                 else R ++ ' ' :: (filterElementText t ++ [' '])))] none] := by
  have htne : t ≠ [] := jsTrim_ne_nil_of t ht
  have hft : filterElementText t ≠ [] := filterElementText_ne_nil t ht
  unfold parseAsIfTag
  simp only [mapObject, List.foldl_cons, List.foldl_nil]
  simp only [hRne, hPne, ne_eq, not_false_eq_true, if_true, if_false,
    (by decide : ¬ (str "prepend" = ([] : Str))),
    (by decide : ¬ (str "property" = ([] : Str))),
    (by decide : ¬ (str "prepend" = str "property")),
    (by decide : ¬ (str "property" = str "prepend")),
    ite_false, ite_true]
  simp only [hR]
  rw [if_pos (show ¬R = [] from hRne), lookupJs_setJs_self]
  rw [if_neg (show ¬ (jsTruthyOpt (some (test (jsTrim P))) = false) from by
    simp only [jsTruthyOpt]
    rw [show (test (jsTrim P)).isEmpty = false from by
      cases hfe : test (jsTrim P) with
      | nil => exact absurd hfe htest
      | cons a l => rfl]
    decide)]
  simp only [runChildren, List.foldlM_cons, List.foldlM_nil]
  rw [convertText_eval n ta (str "if") t ht]
  simp only [bind, Except.bind, pure, Except.pure, List.nil_append, XmlElement.text,
    XmlElement.withText]
  rw [if_pos (show ¬R = [] ∧ ¬(filterElementText t) = [] from ⟨hRne, hft⟩)]
  by_cases hp : parentName = str "set"
  · rw [if_pos hp, if_pos hp]; rfl
  · rw [if_neg hp, if_neg hp]; rfl


/-- Claim C3, counterexample to the original wording.  With parent
`where`, prepend `AND` and body `x`, the first converted text child is
`AND x ` whose first character is `A`, not the leading space the claim's
"surrounding spaces" would require. -/
theorem claim3_counterexample :
    convertCommonSqlAndTags 3 [] (str "where")
      (.mk (str "isNotEmpty") [(str "prepend", str "AND"), (str "property", str "name")] none
        [textPNode (str "x")]) =
      .ok [XmlElement.mk (str "if")
        [(str "test", str "name != null and name != " ++ [sq, sq])]
        [XmlElement.mk TEXT_NODE_NAME [] [] (some (str "AND x "))] none] ∧
    (str "AND x ").head? ≠ some ' ' :=
  ⟨rfl, by decide⟩

theorem claim3_amended_witness :
    parseAsIfTag (convertCommonSqlAndTags 1 []) (str "where")
      [(str "prepend", str "AND"), (str "property", str "name")] [textPNode (str "x")]
      (fun value => value ++ str " != null") =
      .ok [XmlElement.mk (str "if") [(str "test", str "name" ++ str " != null")]
        [XmlElement.mk TEXT_NODE_NAME [] []
          (some (if (str "where") = str "set"
                 then filterElementText (str "x") ++ ' ' :: str "AND"
                 else str "AND" ++ ' ' :: (filterElementText (str "x") ++ [' '])))] none] :=
  claim3_amended 0 [] (str "where") (str "name") (str "AND") (str "x")
    (fun value => value ++ str " != null") (by decide) (by decide) (by decide)
    (by decide) (by decide)

/-! ## Claim C5: loop collection recovery and the list-item replacement -/

theorem filterAttrsAndTranslate_nil (ta : TypeAliasReg) :
    filterAttrsAndTranslate ta [] = [] := by
  unfold filterAttrsAndTranslate aliasPhase renamePhase MAY_ALIAS_ATTR
  rw [List.foldl_cons, aliasStep_none ta [] (str "class") rfl, List.foldl_cons,
    aliasStep_none ta [] (str "parameterClass") rfl, List.foldl_cons,
    aliasStep_none ta [] (str "resultClass") rfl, List.foldl_nil]
  rfl

theorem filterAttrs_open (ta : TypeAliasReg) (op : Str) :
    filterAttrsAndTranslate ta [(str "open", op)] = [(str "open", op)] := by
  unfold filterAttrsAndTranslate aliasPhase MAY_ALIAS_ATTR
  rw [List.foldl_cons,
    aliasStep_none ta _ (str "class")
      ((lookupJs_cons_ne (str "open") op [] (str "class") (by decide)).trans rfl),
    List.foldl_cons,
    aliasStep_none ta _ (str "parameterClass")
      ((lookupJs_cons_ne (str "open") op [] (str "parameterClass") (by decide)).trans rfl),
    List.foldl_cons,
    aliasStep_none ta _ (str "resultClass")
      ((lookupJs_cons_ne (str "open") op [] (str "resultClass") (by decide)).trans rfl),
    List.foldl_nil]
  unfold renamePhase
  rw [show [(str "open", op)].map (fun p => p.1) = [str "open"] from rfl]
  rw [List.foldl_cons,
    show renameStep [(str "open", op)] (str "open") = [(str "open", op)] from rfl]
  rfl

/-- Claim C5, amended.  An `iterate` element carrying at least one
attribute (an attribute-less element makes the converter throw the
`TypeError` of reading the missing attribute object) but no `collection`
attribute, whose child text contains a `#list[]#` token, resolves
`collection` to `list` and `item` to `listItem`, and within the text of
each direct text child only the FIRST occurrence of the literal substring
`list[]` becomes `listItem` — JavaScript `String.replace` with a string
pattern replaces a single occurrence. -/
theorem claim5_amended (n : Nat) (ta : TypeAliasReg) (pn op t : Str)
    (hop : jsTrim op = op) (hopne : op ≠ [])
    (hrec : firstRecovered [textPNode t] = some (str "list"))
    (ht : jsTrim t ≠ []) :
    convertCommonSqlAndTags (n + 2) ta pn
      (.mk (str "iterate") [(str "open", op)] none [textPNode t]) =
      .ok [XmlElement.mk (str "foreach")
        [(str "open", op), (str "item", str "listItem"), (str "collection", str "list")]
        [XmlElement.mk TEXT_NODE_NAME [] []
          (some (replaceFirst (filterElementText t) (str "list[]") (str "listItem")))] none] := by
  have hft : filterElementText t ≠ [] := filterElementText_ne_nil t ht
  rw [convertCommonSqlAndTags]
  simp only [PNode.name, PNode.attr, PNode.text, PNode.children]
  rw [show jsTrim (str "iterate") = str "iterate" from by decide]
  rw [if_neg (by decide), if_neg (List.cons_ne_nil _ _), filterAttrs_open]
  rw [if_neg (by decide), if_neg (by decide), if_neg (by decide), if_neg (by decide),
    if_neg (by decide), if_neg (by decide), if_pos rfl]
  simp only [mapObject, List.foldl_cons, List.foldl_nil]
  simp only [hopne, ne_eq, not_false_eq_true, if_true, if_false,
    (by decide : ¬ (str "open" = ([] : Str))),
    (by decide : ¬ (str "open" = str "property")),
    (by decide : ¬ (str "open" = str "conjunction")),
    (by decide : (str "open" = str "open" ∨ str "open" = str "close")),
    true_or, ite_false, ite_true]
  simp only [hop]
  rw [show setJs ([] : Attrs) (str "open") op = [(str "open", op)] from rfl]
  rw [show setJs [(str "open", op)] (str "item") (str "listItem") =
    [(str "open", op), (str "item", str "listItem")] from rfl]
  rw [if_neg (show ¬ (jsTruthyOpt (lookupJs [(str "open", op), (str "item", str "listItem")]
      (str "collection")) = true) from by
    rw [show lookupJs [(str "open", op), (str "item", str "listItem")] (str "collection") =
      none from rfl]
    decide)]
  simp only [hrec]
  rw [show setJs [(str "open", op), (str "item", str "listItem")] (str "collection")
      (str "list") =
    [(str "open", op), (str "item", str "listItem"), (str "collection", str "list")] from rfl]
  simp only [runChildren, List.foldlM_cons, List.foldlM_nil]
  rw [convertText_eval n ta (str "foreach") t ht]
  simp only [bind, Except.bind, pure, Except.pure, List.nil_append, List.map_cons,
    List.map_nil, XmlElement.text, XmlElement.withText]
  rw [if_pos (show filterElementText t ≠ [] from hft)]
  rw [show jsRender (lookupJs [(str "open", op), (str "item", str "listItem"),
      (str "collection", str "list")] (str "collection")) ++ str "[]" = str "list[]" from rfl]

/-- Claim C5, counterexample to the original "every occurrence" wording:
a direct text child containing two `list[]` occurrences keeps the second
one verbatim after conversion. -/
theorem claim5_counterexample :
    convertCommonSqlAndTags 3 [] (str "select")
      (.mk (str "iterate") [(str "open", str "(")] none
        [textPNode (str "(#list[]#,#list[]#)")]) =
      .ok [XmlElement.mk (str "foreach")
        [(str "open", str "("), (str "item", str "listItem"), (str "collection", str "list")]
        [XmlElement.mk TEXT_NODE_NAME [] []
          (some (('(' :: '#' :: lb :: str "listItem") ++
            (rb :: ',' :: '#' :: lb :: str "list[]") ++ [rb, ')']))] none] ∧
    (str "list[]") <:+: (('(' :: '#' :: lb :: str "listItem") ++
      (rb :: ',' :: '#' :: lb :: str "list[]") ++ [rb, ')']) :=
  ⟨rfl, by decide⟩

theorem claim5_amended_witness :
    convertCommonSqlAndTags 2 [] (str "select")
      (.mk (str "iterate") [(str "open", str "(")] none [textPNode (str "#list[]#")]) =
      .ok [XmlElement.mk (str "foreach")
        [(str "open", str "("), (str "item", str "listItem"), (str "collection", str "list")]
        [XmlElement.mk TEXT_NODE_NAME [] []
          (some (replaceFirst (filterElementText (str "#list[]#")) (str "list[]")
            (str "listItem")))] none] :=
  claim5_amended 0 [] (str "select") (str "(") (str "#list[]#") (by decide) (by decide)
    (by decide) (by decide)

/-! ## Claim C6: procedure placeholder substitution -/


theorem not_mem_replaceFirstSimple (c : Char) (hay needle repl : Str)
    (hh : c ∉ hay) (hr : c ∉ repl) : c ∉ replaceFirstSimple hay needle repl := by
  induction hay with
  | nil =>
    rw [replaceFirstSimple]
    by_cases hn : needle.isEmpty = true
    · rw [if_pos hn]; exact hr
    · rw [if_neg hn]; simp
  | cons a rest ih =>
    rw [replaceFirstSimple]
    by_cases hp : needle.isPrefixOf (a :: rest) = true
    · rw [if_pos hp]
      intro hmem
      rcases List.mem_append.1 hmem with h1 | h2
      · exact hr h1
      · exact hh (List.mem_of_mem_drop h2)
    · rw [if_neg hp]
      intro hmem
      rcases List.mem_cons.1 hmem with he | hm
      · exact hh (he ▸ List.mem_cons_self a rest)
      · exact ih (fun hx => hh (List.mem_cons_of_mem _ hx)) hm

theorem not_mem_jsTrim (c : Char) (l : Str) (h : c ∉ l) : c ∉ jsTrim l := by
  unfold jsTrim
  intro hmem
  rw [List.mem_reverse] at hmem
  have h2 := (List.dropWhile_sublist isJsSpace).subset hmem
  rw [List.mem_reverse] at h2
  exact h ((List.dropWhile_sublist isJsSpace).subset h2)

theorem not_mem_crlfToLf (c : Char) (l : Str) (h : c ∉ l) (hn : c ≠ '\n') :
    c ∉ crlfToLf l := by
  induction l using crlfToLf.induct with
  | case1 => simp [crlfToLf]
  | case2 d => simpa [crlfToLf] using h
  | case3 a b rest hc ih =>
    rw [crlfToLf, if_pos hc]
    intro hmem
    rcases List.mem_cons.1 hmem with he | hm
    · exact hn he
    · exact ih (fun hx => h (List.mem_cons_of_mem _ (List.mem_cons_of_mem _ hx))) hm
  | case4 a b rest hc ih =>
    rw [crlfToLf, if_neg hc]
    intro hmem
    rcases List.mem_cons.1 hmem with he | hm
    · exact h (he ▸ List.mem_cons_self _ _)
    · exact ih (fun hx => h (List.mem_cons_of_mem _ hx)) hm

theorem not_qmark_filterElementText (t : Str) (h : '?' ∉ t) :
    '?' ∉ filterElementText t := by
  simp only [filterElementText]
  have h0 : '?' ∉ crlfToLf (jsTrim t) :=
    not_mem_crlfToLf _ _ (not_mem_jsTrim _ _ h) (by decide)
  generalize crlfToLf (jsTrim t) = base at h0 ⊢
  generalize matchAll base = ms
  induction ms generalizing base with
  | nil => simpa using h0
  | cons m ms ih =>
    rw [List.foldl_cons]
    cases hm : matchAt (tokenStr m) with
    | none => simp only [hm]; exact ih _ h0
    | some p =>
      simp only [hm]
      exact ih _ (by
        rw [replaceFirst_eq_simple _ _ _ (rebuild_dollarfree _ _ _ (by rw [hm]))]
        exact not_mem_replaceFirstSimple _ _ _ _ h0 (rebuild_qfree _ _ _ (by rw [hm])))

theorem paramToken_qfree (p : ParameterMapParameter)
    (h1 : '?' ∉ jsRender p.property) (h2 : '?' ∉ p.mode)
    (h3 : '?' ∉ jsRender p.jdbcType) : '?' ∉ paramToken p := by
  unfold paramToken
  intro hmem
  rcases List.mem_cons.1 hmem with he | hm
  · cases he
  rcases List.mem_cons.1 hm with he | hm2
  · cases he
  rcases List.mem_cons.1 hm2 with he | hm3
  · cases he
  rcases List.mem_append.1 hm3 with hX | hrb
  case inr => rw [List.mem_singleton] at hrb; cases hrb
  rcases List.mem_append.1 hX with hX2 | hE
  case inr => exact h3 hE
  rcases List.mem_append.1 hX2 with hX3 | hD
  case inr => revert hD; decide
  rcases List.mem_append.1 hX3 with hX4 | hC
  case inr => exact h2 hC
  rcases List.mem_append.1 hX4 with hA | hB
  case inr => revert hB; decide
  exact h1 hA

theorem paramToken_dollarfree (p : ParameterMapParameter)
    (h1 : '$' ∉ jsRender p.property) (h2 : '$' ∉ p.mode)
    (h3 : '$' ∉ jsRender p.jdbcType) : '$' ∉ paramToken p := by
  unfold paramToken
  intro hmem
  rcases List.mem_cons.1 hmem with he | hm
  · cases he
  rcases List.mem_cons.1 hm with he | hm2
  · cases he
  rcases List.mem_cons.1 hm2 with he | hm3
  · cases he
  rcases List.mem_append.1 hm3 with hX | hrb
  case inr => rw [List.mem_singleton] at hrb; cases hrb
  rcases List.mem_append.1 hX with hX2 | hE
  case inr => exact h3 hE
  rcases List.mem_append.1 hX2 with hX3 | hD
  case inr => revert hD; decide
  rcases List.mem_append.1 hX3 with hX4 | hC
  case inr => exact h2 hC
  rcases List.mem_append.1 hX4 with hA | hB
  case inr => revert hB; decide
  exact h1 hA

theorem splitQ_no_q (t : Str) (h : '?' ∉ t) : splitQ t = [t] := by
  induction t with
  | nil => rfl
  | cons c rest ih =>
    have hc : ¬ c = '?' := fun he => h (he ▸ List.mem_cons_self c rest)
    rw [splitQ, if_neg hc, ih (fun hm => h (List.mem_cons_of_mem _ hm))]

theorem splitQ_decomp (t : Str) (h : '?' ∈ t) :
    ∃ a b, t = a ++ '?' :: b ∧ '?' ∉ a ∧ splitQ t = a :: splitQ b := by
  induction t with
  | nil => cases h
  | cons c rest ih =>
    by_cases hc : c = '?'
    · subst hc
      refine ⟨[], rest, rfl, by simp, ?_⟩
      rw [splitQ, if_pos rfl]
    · have hr : '?' ∈ rest := by
        rcases List.mem_cons.1 h with he | hm
        · exact absurd he.symm hc
        · exact hm
      obtain ⟨a, b, h1, h2, h3⟩ := ih hr
      refine ⟨c :: a, b, by rw [List.cons_append, h1], ?_, ?_⟩
      · intro hm
        rcases List.mem_cons.1 hm with he | hm2
        · exact hc he.symm
        · exact h2 hm2
      · rw [splitQ, if_neg hc, h3]

theorem replaceFirstSimple_char_append (q : Char) (a t r : Str) (h : q ∉ a) :
    replaceFirstSimple (a ++ t) [q] r = a ++ replaceFirstSimple t [q] r := by
  induction a with
  | nil => rfl
  | cons c a ih =>
    have hq : ¬ c = q := fun he => h (he ▸ List.mem_cons_self c a)
    have hpre : ¬ ([q].isPrefixOf (c :: (a ++ t)) = true) := by
      simp [List.isPrefixOf]
      exact fun he => hq he.symm
    rw [List.cons_append, replaceFirstSimple, if_neg hpre,
      ih (fun hm => h (List.mem_cons_of_mem _ hm))]
    rfl

theorem replaceFirstSimple_char_hit (q : Char) (a b r : Str) (h : q ∉ a) :
    replaceFirstSimple (a ++ q :: b) [q] r = a ++ r ++ b := by
  rw [replaceFirstSimple_char_append q a (q :: b) r h, replaceFirstSimple,
    if_pos (by simp [List.isPrefixOf])]
  simp

theorem substQ_append (ps : List ParameterMapParameter) (pre t : Str) (h : '?' ∉ pre)
    (hd : ∀ p ∈ ps, '$' ∉ paramToken p) :
    substQuestionMarks (pre ++ t) ps = pre ++ substQuestionMarks t ps := by
  induction ps generalizing t with
  | nil => rfl
  | cons p ps ih =>
    unfold substQuestionMarks
    have hdp : '$' ∉ paramToken p := hd p (List.mem_cons_self p ps)
    rw [List.foldl_cons, List.foldl_cons, replaceFirst_eq_simple _ _ _ hdp,
      replaceFirst_eq_simple _ _ _ hdp, replaceFirstSimple_char_append '?' pre t _ h]
    exact ih (replaceFirstSimple t ['?'] (paramToken p))
      (fun p2 hp2 => hd p2 (List.mem_cons_of_mem _ hp2))

theorem substQ_interleave (ps : List ParameterMapParameter) (t : Str)
    (hcount : countQ t = ps.length) (hq : ∀ p ∈ ps, '?' ∉ paramToken p)
    (hd : ∀ p ∈ ps, '$' ∉ paramToken p) :
    substQuestionMarks t ps = interleave (splitQ t) (ps.map paramToken) ∧
    '?' ∉ substQuestionMarks t ps := by
  induction ps generalizing t with
  | nil =>
    have hnq : '?' ∉ t := by
      intro hm
      have hpos := List.count_pos_iff.2 hm
      unfold countQ at hcount
      rw [hcount] at hpos
      simp at hpos
    refine ⟨?_, hnq⟩
    rw [show substQuestionMarks t [] = t from rfl, splitQ_no_q t hnq, List.map_nil,
      interleave]
    rw [interleave]
    simp
  | cons p ps ih =>
    have hmem : '?' ∈ t := by
      apply List.count_pos_iff.1
      unfold countQ at hcount
      rw [hcount]
      simp
    obtain ⟨a, b, hdecomp, ha, hsplit⟩ := splitQ_decomp t hmem
    have htokq : '?' ∉ paramToken p := hq p (List.mem_cons_self p ps)
    have hcb : countQ b = ps.length := by
      unfold countQ at hcount ⊢
      rw [hdecomp, List.count_append, List.count_cons] at hcount
      have hca : List.count '?' a = 0 := List.count_eq_zero.2 ha
      rw [hca] at hcount
      simp at hcount
      omega
    have hstep : substQuestionMarks t (p :: ps) =
        substQuestionMarks (a ++ paramToken p ++ b) ps := by
      unfold substQuestionMarks
      rw [List.foldl_cons, hdecomp,
        replaceFirst_eq_simple _ _ _ (hd p (List.mem_cons_self p ps)),
        replaceFirstSimple_char_hit '?' a b _ ha]
    have hpref : '?' ∉ a ++ paramToken p := by
      intro hm
      rcases List.mem_append.1 hm with h1 | h2
      · exact ha h1
      · exact htokq h2
    obtain ⟨ih1, ih2⟩ := ih b hcb (fun p2 hp2 => hq p2 (List.mem_cons_of_mem _ hp2))
      (fun p2 hp2 => hd p2 (List.mem_cons_of_mem _ hp2))
    rw [hstep, substQ_append ps _ _ hpref (fun p2 hp2 => hd p2 (List.mem_cons_of_mem _ hp2))]
    constructor
    · rw [ih1, hsplit, List.map_cons, interleave]
    · intro hm
      rcases List.mem_append.1 hm with h1 | h2
      · exact hpref h1
      · exact ih2 h2

theorem filterAttrs_no_alias_keys (ta : TypeAliasReg) (o : Attrs)
    (h1 : lookupJs o (str "class") = none) (h2 : lookupJs o (str "parameterClass") = none)
    (h3 : lookupJs o (str "resultClass") = none)
    (h4 : ∀ k ∈ o.map (·.1), NEED_CONVERTER k = none) :
    filterAttrsAndTranslate ta o = o := by
  unfold filterAttrsAndTranslate aliasPhase MAY_ALIAS_ATTR
  rw [List.foldl_cons, aliasStep_none _ _ _ h1, List.foldl_cons, aliasStep_none _ _ _ h2,
    List.foldl_cons, aliasStep_none _ _ _ h3, List.foldl_nil]
  unfold renamePhase
  exact renameFold_id _ _ h4

/-- The text join of `parseProcedure` over text-run children is the plain
concatenation of their texts. -/
def concatTexts (ts : List Str) : Str := ts.foldl (fun acc t => acc ++ t) []

theorem join_map_textPNode (ts : List Str) :
    (ts.map textPNode).foldl (fun acc child => acc ++ jsRender child.text) [] =
      concatTexts ts := by
  unfold concatTexts
  have hgen : ∀ init : Str,
      (ts.map textPNode).foldl (fun acc child => acc ++ jsRender child.text) init =
        ts.foldl (fun acc t => acc ++ t) init := by
    induction ts with
    | nil => intro init; rfl
    | cons t ts ih =>
      intro init
      rw [List.map_cons, List.foldl_cons, List.foldl_cons]
      exact ih (init ++ t)
  exact hgen []

/-- Claim C6, amended.  For a procedure whose `parameterMap` resolves to
a registered map with exactly as many descriptors as literal question
marks in the concatenated text of its immediate text children, and no
descriptor field containing a question mark or a dollar sign: the emitted
select's text interleaves the question-free segments with one structured
bind token per descriptor, in order, and contains no literal question
mark.  (A question mark inside a descriptor field re-enters the emitted
text through the substitution — see the counterexample — and a dollar
sign triggers the replacement-pattern processing of JavaScript
`String.replace`.) -/
theorem claim6_procedure_substitution (st : ConvState) (pid idv cls : Str)
    (pm : ParameterMap) (ts : List Str)
    (hlook : lookupJs st.parameterMap pid = some pm)
    (hcls : pm.pmclass = some cls)
    (hcount : countQ (concatTexts ts) = pm.parameters.length)
    (hfields : ∀ p ∈ pm.parameters,
      ('?' ∉ jsRender p.property ∧ '?' ∉ p.mode ∧ '?' ∉ jsRender p.jdbcType) ∧
      ('$' ∉ jsRender p.property ∧ '$' ∉ p.mode ∧ '$' ∉ jsRender p.jdbcType)) :
    parseProcedure st (.mk (str "procedure")
        [(str "id", idv), (str "parameterMap", pid)] none (ts.map textPNode)) =
      .ok (XmlElement.mk (str "select")
        [(str "id", idv), (str "parameterType", cls)] []
        (some (filterElementText
          (interleave (splitQ (concatTexts ts)) (pm.parameters.map paramToken))))) ∧
    '?' ∉ filterElementText
      (interleave (splitQ (concatTexts ts)) (pm.parameters.map paramToken)) := by
  have htok : ∀ p ∈ pm.parameters, '?' ∉ paramToken p := fun p hp =>
    paramToken_qfree p (hfields p hp).1.1 (hfields p hp).1.2.1 (hfields p hp).1.2.2
  have htokd : ∀ p ∈ pm.parameters, '$' ∉ paramToken p := fun p hp =>
    paramToken_dollarfree p (hfields p hp).2.1 (hfields p hp).2.2.1 (hfields p hp).2.2.2
  obtain ⟨hsub, hfree⟩ := substQ_interleave pm.parameters (concatTexts ts) hcount htok htokd
  unfold parseProcedure
  simp only [PNode.attr, PNode.children]
  rw [filterAttrs_no_alias_keys st.typeAlias
      [(str "id", idv), (str "parameterMap", pid)] rfl rfl rfl (by
    intro k hk
    rcases List.mem_cons.1 hk with he | hk2
    · rw [he]; rfl
    · rcases List.mem_cons.1 hk2 with he | hk3
      · rw [he]; rfl
      · cases hk3)]
  rw [join_map_textPNode]
  simp only [List.foldlM_cons, List.foldlM_nil,
    (by decide : ¬ (str "id" = ([] : Str))),
    (by decide : ¬ (str "parameterMap" = ([] : Str))),
    (by decide : ¬ (str "id" = str "parameterMap")),
    ite_false, ite_true, if_false, if_true, hlook, hcls]
  refine ⟨?_, by rw [← hsub]; exact not_qmark_filterElementText _ hfree⟩
  simp only [bind, Except.bind, pure, Except.pure]
  cases hps : pm.parameters with
  | nil =>
    have hnq : '?' ∉ concatTexts ts := by
      intro hm
      have hpos := List.count_pos_iff.2 hm
      unfold countQ at hcount
      rw [hcount, hps] at hpos
      simp at hpos
    rw [if_neg (by
      intro hany
      obtain ⟨x, hx, hbeq⟩ := List.any_eq_true.1 hany
      rw [beq_iff_eq] at hbeq
      exact hnq (hbeq ▸ hx))]
    rw [hps] at hsub
    rw [← hsub]
    rfl
  | cons p ps =>
    have hmem : '?' ∈ concatTexts ts := by
      apply List.count_pos_iff.1
      unfold countQ at hcount
      rw [hcount, hps]
      simp
    rw [if_pos (List.any_eq_true.2 ⟨'?', hmem, by decide⟩)]
    rw [hps] at hsub
    rw [hsub]
    rfl

theorem claim6_procedure_substitution_witness :
    parseProcedure
      ⟨[], [(str "pm1", ⟨some (str "pm1"), some (str "java.util.Map"),
        [⟨some (str "A"), str "IN", some (str "VARCHAR"), some (str "java.lang.String")⟩,
         ⟨some (str "B"), str "IN", some (str "VARCHAR"), some (str "java.lang.String")⟩,
         ⟨some (str "C"), str "OUT", some (str "VARCHAR"), some (str "java.lang.String")⟩]⟩)]⟩
      (.mk (str "procedure") [(str "id", str "p"), (str "parameterMap", str "pm1")] none
        ([str "call p(?, ?, ?)"].map textPNode)) =
      .ok (XmlElement.mk (str "select")
        [(str "id", str "p"), (str "parameterType", str "java.util.Map")] []
        (some (filterElementText
          (interleave (splitQ (concatTexts [str "call p(?, ?, ?)"]))
            (List.map paramToken
              [⟨some (str "A"), str "IN", some (str "VARCHAR"), some (str "java.lang.String")⟩,
               ⟨some (str "B"), str "IN", some (str "VARCHAR"), some (str "java.lang.String")⟩,
               ⟨some (str "C"), str "OUT", some (str "VARCHAR"), some (str "java.lang.String")⟩]))))) ∧
    '?' ∉ filterElementText
      (interleave (splitQ (concatTexts [str "call p(?, ?, ?)"]))
        (List.map paramToken
          [⟨some (str "A"), str "IN", some (str "VARCHAR"), some (str "java.lang.String")⟩,
           ⟨some (str "B"), str "IN", some (str "VARCHAR"), some (str "java.lang.String")⟩,
           ⟨some (str "C"), str "OUT", some (str "VARCHAR"), some (str "java.lang.String")⟩])) :=
  claim6_procedure_substitution
    ⟨[], [(str "pm1", ⟨some (str "pm1"), some (str "java.util.Map"),
      [⟨some (str "A"), str "IN", some (str "VARCHAR"), some (str "java.lang.String")⟩,
       ⟨some (str "B"), str "IN", some (str "VARCHAR"), some (str "java.lang.String")⟩,
       ⟨some (str "C"), str "OUT", some (str "VARCHAR"), some (str "java.lang.String")⟩]⟩)]⟩
    (str "pm1") (str "p") (str "java.util.Map")
    ⟨some (str "pm1"), some (str "java.util.Map"),
      [⟨some (str "A"), str "IN", some (str "VARCHAR"), some (str "java.lang.String")⟩,
       ⟨some (str "B"), str "IN", some (str "VARCHAR"), some (str "java.lang.String")⟩,
       ⟨some (str "C"), str "OUT", some (str "VARCHAR"), some (str "java.lang.String")⟩]⟩
    [str "call p(?, ?, ?)"] rfl rfl (by decide) (by decide)

/-- Claim C6, counterexample to the original wording.  A procedure inside
the claim's scope — one question mark in the body and exactly one
registered descriptor — whose descriptor property itself contains a
question mark emits a select whose text still contains a literal
question mark: the substitution re-introduces it. -/
theorem claim6_counterexample :
    parseProcedure
      ⟨[], [(str "pm1", ⟨some (str "pm1"), some (str "java.util.Map"),
        [⟨some (str "a?b"), str "IN", some (str "VARCHAR"), some (str "java.lang.String")⟩]⟩)]⟩
      (.mk (str "procedure") [(str "id", str "p"), (str "parameterMap", str "pm1")] none
        [textPNode (str "call p(?)")]) =
      .ok (XmlElement.mk (str "select")
        [(str "id", str "p"), (str "parameterType", str "java.util.Map")] []
        (some (filterElementText (substQuestionMarks (str "call p(?)")
          [⟨some (str "a?b"), str "IN", some (str "VARCHAR"), some (str "java.lang.String")⟩])))) ∧
    countQ (str "call p(?)") =
      ([⟨some (str "a?b"), str "IN", some (str "VARCHAR"),
        some (str "java.lang.String")⟩] : List ParameterMapParameter).length ∧
    '?' ∈ filterElementText (substQuestionMarks (str "call p(?)")
      [⟨some (str "a?b"), str "IN", some (str "VARCHAR"), some (str "java.lang.String")⟩]) :=
  ⟨rfl, by decide, by decide⟩

/-! ## Claims C7 and C10: fatal procedure and parameter-map errors -/

/-- Claim C10.  A `parameterMap` declaration holding a `parameter` child
with no `mode` attribute makes the whole document conversion throw the
TypeError of `undefined.toUpperCase()` instead of defaulting to `IN`; a
present mode that is not case-insensitively `IN`/`OUT` defaults to `IN`,
and a present case-insensitive `IN`/`OUT` is kept verbatim without
upper-casing. -/
theorem claim10_mode_handling (fuel : Nat) (st : ConvState) (rest : List PNode)
    (pmid prop m : Str) (p j jv : Option Str) :
    parseDocAux fuel st
      (.mk (str "parameterMap") [(str "id", pmid), (str "class", str "map")] none
        [.mk (str "parameter") [(str "property", prop)] none []] :: rest) =
      .error .modeUndefinedTypeError ∧
    ((jsToUpper m ≠ str "IN" ∧ jsToUpper m ≠ str "OUT") →
      createParameterMapParameter p (some m) j jv = .ok ⟨p, str "IN", j, jv⟩) ∧
    (jsToUpper m = str "IN" ∨ jsToUpper m = str "OUT" →
      createParameterMapParameter p (some m) j jv = .ok ⟨p, m, j, jv⟩) := by
  refine ⟨rfl, ?_, ?_⟩
  · intro h
    simp only [createParameterMapParameter]
    rw [if_pos h]
  · intro h
    simp only [createParameterMapParameter]
    rw [if_neg (by
      intro hc
      rcases h with h | h
      · exact hc.1 h
      · exact hc.2 h)]

theorem claim10_mode_handling_witness :
    parseDocAux 1 emptyState
      [.mk (str "parameterMap") [(str "id", str "m1"), (str "class", str "map")] none
        [.mk (str "parameter") [(str "property", str "P")] none []]] =
      .error .modeUndefinedTypeError ∧
    createParameterMapParameter (some (str "P")) (some (str "inout")) none none =
      .ok ⟨some (str "P"), str "IN", none, none⟩ ∧
    createParameterMapParameter (some (str "P")) (some (str "in")) none none =
      .ok ⟨some (str "P"), str "in", none, none⟩ :=
  ⟨(claim10_mode_handling 1 emptyState [] (str "m1") (str "P") (str "inout")
      (some (str "P")) none none).1,
   (claim10_mode_handling 1 emptyState [] (str "m1") (str "P") (str "inout")
      (some (str "P")) none none).2.1 (by decide),
   (claim10_mode_handling 1 emptyState [] (str "m1") (str "P") (str "in")
      (some (str "P")) none none).2.2 (by decide)⟩

/-- Claim C7.  A procedure whose `parameterMap` attribute names an id
absent from the registry makes the whole document conversion fail with
`cannotFindParameterMap`, producing no output list; likewise a procedure
body containing a question mark with no parameter map supplied fails with
`foundQuestionButNoParameterMap`. -/
theorem claim7_unresolved_reference_fatal (fuel : Nat) (st : ConvState)
    (pid idv t : Str) (rest : List PNode)
    (h1 : lookupJs st.parameterMap pid = none) (h2 : '?' ∈ t) :
    parseDocAux fuel st
      (.mk (str "procedure") [(str "id", idv), (str "parameterMap", pid)] none [] :: rest) =
      .error (.cannotFindParameterMap pid) ∧
    parseDocAux fuel st
      (.mk (str "procedure") [(str "id", idv)] none [textPNode t] :: rest) =
      .error (.foundQuestionButNoParameterMap none) := by
  constructor
  · rw [parseDocAux]
    have hproc : parseProcedure st
        (.mk (str "procedure") [(str "id", idv), (str "parameterMap", pid)] none []) =
        .error (.cannotFindParameterMap pid) := by
      unfold parseProcedure
      simp only [PNode.attr, PNode.children]
      rw [filterAttrs_no_alias_keys st.typeAlias
          [(str "id", idv), (str "parameterMap", pid)] rfl rfl rfl (by
        intro k hk
        rcases List.mem_cons.1 hk with he | hk2
        · rw [he]; rfl
        · rcases List.mem_cons.1 hk2 with he | hk3
          · rw [he]; rfl
          · cases hk3)]
      simp only [List.foldlM_cons, List.foldlM_nil,
        (by decide : ¬ (str "id" = ([] : Str))),
        (by decide : ¬ (str "parameterMap" = ([] : Str))),
        (by decide : ¬ (str "id" = str "parameterMap")),
        ite_false, ite_true, if_false, if_true, h1]
      rfl
    rw [dispatchRoot]
    simp only [PNode.name,
      (by decide : ¬ (str "procedure" = str "typeAlias")),
      (by decide : ¬ (str "procedure" = str "resultMap")),
      (by decide : ¬ (str "procedure" = str "sql" ∨ str "procedure" = str "select" ∨
        str "procedure" = str "insert" ∨ str "procedure" = str "update" ∨
        str "procedure" = str "delete")),
      (by decide : ¬ (str "procedure" = str "parameterMap")),
      ite_false, ite_true, if_false, if_true, hproc]
    rfl
  · rw [parseDocAux]
    have hproc : parseProcedure st
        (.mk (str "procedure") [(str "id", idv)] none [textPNode t]) =
        .error (.foundQuestionButNoParameterMap none) := by
      unfold parseProcedure
      simp only [PNode.attr, PNode.children]
      rw [filterAttrs_no_alias_keys st.typeAlias [(str "id", idv)] rfl rfl rfl (by
        intro k hk
        rcases List.mem_cons.1 hk with he | hk2
        · rw [he]; rfl
        · cases hk2)]
      simp only [List.foldlM_cons, List.foldlM_nil,
        (by decide : ¬ (str "id" = ([] : Str))),
        (by decide : ¬ (str "id" = str "parameterMap")),
        ite_false, ite_true, if_false, if_true]
      simp only [List.foldl_cons, List.foldl_nil, bind, Except.bind, pure, Except.pure]
      rw [if_pos (show (List.any ([] ++ jsRender (textPNode t).text)
          fun c => c == '?') = true from by
        simp only [textPNode, PNode.text, jsRender, List.nil_append]
        exact List.any_eq_true.2 ⟨'?', h2, by decide⟩)]
      rfl
    rw [dispatchRoot]
    simp only [PNode.name,
      (by decide : ¬ (str "procedure" = str "typeAlias")),
      (by decide : ¬ (str "procedure" = str "resultMap")),
      (by decide : ¬ (str "procedure" = str "sql" ∨ str "procedure" = str "select" ∨
        str "procedure" = str "insert" ∨ str "procedure" = str "update" ∨
        str "procedure" = str "delete")),
      (by decide : ¬ (str "procedure" = str "parameterMap")),
      ite_false, ite_true, if_false, if_true, hproc]
    rfl

theorem claim7_unresolved_reference_fatal_witness :
    parseDocAux 1 emptyState
      [.mk (str "procedure") [(str "id", str "p"), (str "parameterMap", str "nope")] none []] =
      .error (.cannotFindParameterMap (str "nope")) ∧
    parseDocAux 1 emptyState
      [.mk (str "procedure") [(str "id", str "p")] none [textPNode (str "call p(?)")]] =
      .error (.foundQuestionButNoParameterMap none) :=
  claim7_unresolved_reference_fatal 1 emptyState (str "nope") (str "p")
    (str "call p(?)") [] rfl (by decide)

theorem aliasStep_class_resolved (ta : TypeAliasReg) (A fq rid : Str)
    (hA : jsTrim A = A) (hAne : A ≠ []) (hlook : lookupJs ta A = some (some fq))
    (hfq : fq ≠ []) :
    aliasStep ta [(str "id", rid), (str "class", A)] (str "class") =
      [(str "id", rid), (str "class", fq)] := by
  unfold aliasStep
  rw [lookupJs_cons_ne _ _ _ _ (by decide), lookupJs_cons_eq _ _ _ _ rfl]
  simp only [hA]
  rw [if_pos hAne, if_neg (show ¬ (A ≠ A) from fun h => h rfl), hlook]
  show (if fq ≠ [] then setJs [(str "id", rid), (str "class", A)] (str "class") fq
    else [(str "id", rid), (str "class", A)]) = [(str "id", rid), (str "class", fq)]
  rw [if_pos hfq]
  rfl

theorem aliasStep_class_unresolved (ta : TypeAliasReg) (A rid : Str)
    (hA : jsTrim A = A) (hAne : A ≠ []) (hlook : lookupJs ta A = none) :
    aliasStep ta [(str "id", rid), (str "class", A)] (str "class") =
      [(str "id", rid), (str "class", A)] := by
  unfold aliasStep
  rw [lookupJs_cons_ne _ _ _ _ (by decide), lookupJs_cons_eq _ _ _ _ rfl]
  simp only [hA]
  rw [if_pos hAne, if_neg (show ¬ (A ≠ A) from fun h => h rfl), hlook]

theorem filterAttrs_class_shape (ta : TypeAliasReg) (A rid ty : Str)
    (hstep : aliasStep ta [(str "id", rid), (str "class", A)] (str "class") =
      [(str "id", rid), (str "class", ty)]) :
    filterAttrsAndTranslate ta [(str "id", rid), (str "class", A)] =
      [(str "id", rid), (str "type", ty)] := by
  unfold filterAttrsAndTranslate aliasPhase MAY_ALIAS_ATTR
  rw [List.foldl_cons, hstep, List.foldl_cons, aliasStep_none _ _ _ (by
      rw [lookupJs_cons_ne _ _ _ _ (by decide), lookupJs_cons_ne _ _ _ _ (by decide)]
      rfl),
    List.foldl_cons, aliasStep_none _ _ _ (by
      rw [lookupJs_cons_ne _ _ _ _ (by decide), lookupJs_cons_ne _ _ _ _ (by decide)]
      rfl),
    List.foldl_nil]
  unfold renamePhase
  rw [show [(str "id", rid), (str "class", ty)].map (fun p => p.1) =
    [str "id", str "class"] from rfl]
  rw [List.foldl_cons, show renameStep [(str "id", rid), (str "class", ty)] (str "id") =
    [(str "id", rid), (str "class", ty)] from rfl]
  rw [List.foldl_cons, show renameStep [(str "id", rid), (str "class", ty)] (str "class") =
    [(str "id", rid), (str "type", ty)] from by
      unfold renameStep
      rw [show NEED_CONVERTER (str "class") = some (str "type") from rfl]
      rw [lookupJs_cons_ne _ _ _ _ (by decide), lookupJs_cons_eq _ _ _ _ rfl]
      rfl]
  rfl

theorem parseResultMap_shape (ta : TypeAliasReg) (A rid col prop ty : Str)
    (hres : filterAttrsAndTranslate ta [(str "id", rid), (str "class", A)] =
      [(str "id", rid), (str "type", ty)]) :
    parseResultMap ta (.mk (str "resultMap") [(str "id", rid), (str "class", A)] none
      [.mk (str "result") [(str "column", col), (str "property", prop)] none []]) =
      .ok (XmlElement.mk (str "resultMap") [(str "id", rid), (str "type", ty)]
        [XmlElement.mk (str "result") [(str "column", col), (str "property", prop)] [] none]
        none) := by
  unfold parseResultMap
  simp only [PNode.attr, PNode.children, hres]
  rfl

theorem parseTypeAlias_state (st : ConvState) (A v : Str) :
    parseTypeAlias st (.mk (str "typeAlias") [(str "alias", A), (str "type", v)] none []) =
      { st with typeAlias := setJs st.typeAlias A (some v) } := by
  unfold parseTypeAlias
  simp only [PNode.attr]
  rw [lookupJs_cons_eq _ _ _ _ rfl,
    lookupJs_cons_ne _ _ _ _ (by decide), lookupJs_cons_eq _ _ _ _ rfl]
  rfl

theorem dispatchRoot_typeAlias (fuel : Nat) (st : ConvState) (a : Attrs)
    (t : Option Str) (ks : List PNode) :
    dispatchRoot fuel st (.mk (str "typeAlias") a t ks) =
      .ok (parseTypeAlias st (.mk (str "typeAlias") a t ks), []) := rfl

theorem dispatchRoot_resultMap (fuel : Nat) (st : ConvState) (a : Attrs)
    (t : Option Str) (ks : List PNode) :
    dispatchRoot fuel st (.mk (str "resultMap") a t ks) =
      (parseResultMap st.typeAlias (.mk (str "resultMap") a t ks)).map
        (fun r => (st, [r])) := rfl

theorem parseDocAux_cons_ok (fuel : Nat) (st st2 : ConvState) (es : List XmlElement)
    (tag : PNode) (rest : List PNode)
    (h : dispatchRoot fuel st tag = .ok (st2, es)) :
    parseDocAux fuel st (tag :: rest) =
      (parseDocAux fuel st2 rest).map (fun r => es ++ r) := by
  rw [parseDocAux, h]
  show (parseDocAux fuel st2 rest >>= fun esRest => pure (es ++ esRest)) = _
  cases hrest : parseDocAux fuel st2 rest with
  | error e => rfl
  | ok r => rfl

theorem setJs_single_overwrite {α : Type} (k : Str) (v v2 : α) :
    setJs [(k, v)] k v2 = [(k, v2)] := by
  simp [setJs]

/-- C9: a type alias is visible only after its declaring tag in document
order — a `resultMap` whose `class` uses alias `A` resolves to the
fully-qualified type when the `typeAlias` declaration precedes it, keeps
the short name when the declaration follows it, and sees the latest value
when a later duplicate declaration overwrote an earlier one. -/
theorem claim9_alias_ordering (fuel : Nat) (A fq fq2 rid col prop : Str)
    (hA : jsTrim A = A) (hAne : A ≠ []) (hfq : fq ≠ []) (hfq2 : fq2 ≠ []) :
    parse fuel
      [.mk (str "typeAlias") [(str "alias", A), (str "type", fq)] none [],
       .mk (str "resultMap") [(str "id", rid), (str "class", A)] none
         [.mk (str "result") [(str "column", col), (str "property", prop)] none []]] =
      .ok [XmlElement.mk (str "resultMap") [(str "id", rid), (str "type", fq)]
        [XmlElement.mk (str "result") [(str "column", col), (str "property", prop)] [] none]
        none] ∧
    parse fuel
      [.mk (str "resultMap") [(str "id", rid), (str "class", A)] none
         [.mk (str "result") [(str "column", col), (str "property", prop)] none []],
       .mk (str "typeAlias") [(str "alias", A), (str "type", fq)] none []] =
      .ok [XmlElement.mk (str "resultMap") [(str "id", rid), (str "type", A)]
        [XmlElement.mk (str "result") [(str "column", col), (str "property", prop)] [] none]
        none] ∧
    parse fuel
      [.mk (str "typeAlias") [(str "alias", A), (str "type", fq)] none [],
       .mk (str "typeAlias") [(str "alias", A), (str "type", fq2)] none [],
       .mk (str "resultMap") [(str "id", rid), (str "class", A)] none
         [.mk (str "result") [(str "column", col), (str "property", prop)] none []]] =
      .ok [XmlElement.mk (str "resultMap") [(str "id", rid), (str "type", fq2)]
        [XmlElement.mk (str "result") [(str "column", col), (str "property", prop)] [] none]
        none] := by
  refine ⟨?_, ?_, ?_⟩
  · show parseDocAux fuel emptyState _ = _
    rw [parseDocAux_cons_ok fuel emptyState _ [] _ _ (dispatchRoot_typeAlias fuel emptyState _ none [])]
    rw [parseTypeAlias_state]
    show (parseDocAux fuel ⟨[(A, some fq)], []⟩ _).map _ = _
    rw [parseDocAux_cons_ok fuel _ ⟨[(A, some fq)], []⟩ _ _ _ (by
      rw [dispatchRoot_resultMap,
        parseResultMap_shape _ _ _ _ _ fq (filterAttrs_class_shape _ _ _ _
          (aliasStep_class_resolved _ _ _ _ hA hAne (lookupJs_cons_eq _ _ _ _ rfl) hfq))]
      rfl)]
    rfl
  · show parseDocAux fuel emptyState _ = _
    rw [parseDocAux_cons_ok fuel emptyState emptyState _ _ _ (by
      rw [dispatchRoot_resultMap,
        parseResultMap_shape emptyState.typeAlias _ _ _ _ A (filterAttrs_class_shape _ _ _ _
          (aliasStep_class_unresolved emptyState.typeAlias A rid hA hAne rfl))]
      rfl)]
    rw [parseDocAux_cons_ok fuel emptyState _ [] _ _ (dispatchRoot_typeAlias fuel emptyState _ none [])]
    rfl
  · show parseDocAux fuel emptyState _ = _
    rw [parseDocAux_cons_ok fuel emptyState _ [] _ _ (dispatchRoot_typeAlias fuel emptyState _ none [])]
    rw [parseTypeAlias_state]
    show (parseDocAux fuel ⟨[(A, some fq)], []⟩ _).map _ = _
    rw [parseDocAux_cons_ok fuel _ _ [] _ _ (dispatchRoot_typeAlias fuel _ _ none [])]
    rw [parseTypeAlias_state]
    show ((parseDocAux fuel ⟨setJs [(A, some fq)] A (some fq2), []⟩ _).map _).map _ = _
    rw [setJs_single_overwrite]
    rw [parseDocAux_cons_ok fuel _ ⟨[(A, some fq2)], []⟩ _ _ _ (by
      rw [dispatchRoot_resultMap,
        parseResultMap_shape _ _ _ _ _ fq2 (filterAttrs_class_shape _ _ _ _
          (aliasStep_class_resolved _ _ _ _ hA hAne (lookupJs_cons_eq _ _ _ _ rfl) hfq2))]
      rfl)]
    rfl

theorem claim9_alias_ordering_witness :
    parse 1
      [.mk (str "typeAlias") [(str "alias", str "Acc"), (str "type", str "com.x.Account")] none [],
       .mk (str "resultMap") [(str "id", str "r1"), (str "class", str "Acc")] none
         [.mk (str "result") [(str "column", str "c"), (str "property", str "p")] none []]] =
      .ok [XmlElement.mk (str "resultMap")
        [(str "id", str "r1"), (str "type", str "com.x.Account")]
        [XmlElement.mk (str "result") [(str "column", str "c"), (str "property", str "p")] [] none]
        none] ∧
    parse 1
      [.mk (str "resultMap") [(str "id", str "r1"), (str "class", str "Acc")] none
         [.mk (str "result") [(str "column", str "c"), (str "property", str "p")] none []],
       .mk (str "typeAlias") [(str "alias", str "Acc"), (str "type", str "com.x.Account")] none []] =
      .ok [XmlElement.mk (str "resultMap")
        [(str "id", str "r1"), (str "type", str "Acc")]
        [XmlElement.mk (str "result") [(str "column", str "c"), (str "property", str "p")] [] none]
        none] ∧
    parse 1
      [.mk (str "typeAlias") [(str "alias", str "Acc"), (str "type", str "com.x.Account")] none [],
       .mk (str "typeAlias") [(str "alias", str "Acc"), (str "type", str "com.y.Account")] none [],
       .mk (str "resultMap") [(str "id", str "r1"), (str "class", str "Acc")] none
         [.mk (str "result") [(str "column", str "c"), (str "property", str "p")] none []]] =
      .ok [XmlElement.mk (str "resultMap")
        [(str "id", str "r1"), (str "type", str "com.y.Account")]
        [XmlElement.mk (str "result") [(str "column", str "c"), (str "property", str "p")] [] none]
        none] :=
  claim9_alias_ordering 1 (str "Acc") (str "com.x.Account") (str "com.y.Account")
    (str "r1") (str "c") (str "p") (by decide) (by decide) (by decide) (by decide)

end ItoM
